import Mathlib

/-!
Verification development for the ts-audio container library.

The definitions below are shallow embeddings of the TypeScript source:

* `src/packages/ts-audio/src/bitstream.ts` — `BitReader`, `BitWriter`,
  Exp-Golomb / unary / Rice codings, `crc32`;
* `src/packages/ts-audio/src/reader.ts`   — `FileSlice`, `Reader` (buffer source);
* `src/packages/ts-audio/src/muxer.ts`    — the base `Muxer` state machine;
* the MP3, WAV, FLAC, AAC and OGG format packages (frame-header parsing,
  `canRead` probes, the WAV demuxer `init`, the AAC packet path, FLAC
  STREAMINFO parsing) and the `detectFormat` registry walk.

JavaScript numbers are embedded as follows: values that the source keeps in
ordinary (floating-point) arithmetic but that are integral on every modelled
path are represented by `Nat` / `Int`; the `|`, `&`, `^`, `<<`, `>>`, `>>>`
operators, which coerce their operands to 32-bit integers, are modelled by the
`js*` functions below with explicit reduction modulo `2 ^ 32`.  Exact
non-integral arithmetic (durations, frame-size formulas before flooring) is
modelled by `ℚ`; on the modelled paths the IEEE-754 results are exact or the
distance to the nearest integer exceeds the rounding error, so real-valued
floors agree with the floating-point ones.
-/

/-! ### JavaScript 32-bit integer semantics -/

/-- Reduction of an integer to JavaScript `ToUint32`: the 32-bit pattern read
as an unsigned number (this is what the `>>> 0` idiom in the source returns). -/
def jsToUint32 (x : Int) : Nat := (x % (2 ^ 32 : Int)).toNat

/-- Reinterpretation of a 32-bit unsigned pattern as a signed 32-bit value. -/
def int32OfUint32 (x : Nat) : Int :=
  if x < 2 ^ 31 then (x : Int) else (x : Int) - 2 ^ 32

/-- JavaScript `ToInt32`: reduce to 32 bits and reinterpret as signed. -/
def jsToInt32 (x : Int) : Int := int32OfUint32 (jsToUint32 x)

/-- JavaScript `a << n` (signed 32-bit left shift, shift count masked to 5 bits). -/
def jsShl (a : Int) (n : Nat) : Int :=
  int32OfUint32 ((jsToUint32 a <<< (n % 32)) % 2 ^ 32)

/-- JavaScript `a >> n` (arithmetic right shift = floor division of the signed
32-bit value by a power of two). -/
def jsShr (a : Int) (n : Nat) : Int := Int.fdiv (jsToInt32 a) (2 ^ (n % 32))

/-- JavaScript `a | b` on 32-bit patterns. -/
def jsOr (a b : Int) : Int := int32OfUint32 (jsToUint32 a ||| jsToUint32 b)

/-- JavaScript `a & b` on 32-bit patterns. -/
def jsAnd (a b : Int) : Int := int32OfUint32 (jsToUint32 a &&& jsToUint32 b)

/-- JavaScript `a ^ b` on 32-bit patterns. -/
def jsXor (a b : Int) : Int := int32OfUint32 (jsToUint32 a ^^^ jsToUint32 b)

/-- JavaScript `(a >> i) & 1` for `i ≤ 31`: bit `i` of the 32-bit pattern of
`a` (the arithmetic shift sign-extends, but `& 1` only sees bit `i % 32`). -/
def jsBit (a : Int) (i : Nat) : Nat := (jsToUint32 a >>> (i % 32)) &&& 1

/-! ### BitWriter (`bitstream.ts`, class `BitWriter`)

State: the completed bytes (`buffers`, each pushed as a one-byte buffer in the
source and concatenated here in order), the partial byte being assembled
(`currentByte`), the number of bits in it (`bitPos`) and the running total
(`totalBits`). -/

structure BitWriter where
  buffers : List Nat
  currentByte : Nat
  bitPos : Nat
  totalBits : Nat
deriving Repr, DecidableEq

/-- The freshly constructed `BitWriter` (all fields initialised to zero/empty). -/
def BitWriter.init : BitWriter := ⟨[], 0, 0, 0⟩

/-- `BitWriter.writeBit`. -/
def writeBit (bit : Nat) (w : BitWriter) : BitWriter :=
  let cb := (w.currentByte <<< 1) ||| (bit &&& 1)
  if w.bitPos + 1 = 8 then
    ⟨w.buffers ++ [cb], 0, 0, w.totalBits + 1⟩
  else
    ⟨w.buffers, cb, w.bitPos + 1, w.totalBits + 1⟩

/-- Helper: write a list of bits in order (the source expresses the loops of
`writeBits`, `writeUnary`, `getBuffer` as repeated `writeBit` calls). -/
def writeBitList (bits : List Nat) (w : BitWriter) : BitWriter :=
  bits.foldl (fun acc b => writeBit b acc) w

/-- The bit sequence `writeBits(value, count)` emits: `(value >> i) & 1` for
`i = count-1` down to `0`. -/
def msbBits (value : Int) (count : Nat) : List Nat :=
  (List.range count).map (fun j => jsBit value (count - 1 - j))

/-- `BitWriter.writeBits` (throws — `none` — when `count > 32`). -/
def writeBits (value : Int) (count : Nat) (w : BitWriter) : Option BitWriter :=
  if count > 32 then none
  else some (writeBitList (msbBits value count) w)

/-- `BitWriter.writeUnary`: `value` zero bits then a one bit.  The loop
`for (i = 0; i < value; i++)` runs `value.toNat` times (not at all for a
negative count). -/
def writeUnary (value : Int) (w : BitWriter) : BitWriter :=
  writeBit 1 (writeBitList (List.replicate value.toNat 0) w)

/-- Fuel-driven binary logarithm, identical to `Nat.log2` (which recurses on
`n / 2`, so `n` itself bounds the depth); structural recursion keeps it
computable inside the kernel. -/
def log2Fuel : Nat → Nat → Nat
  | 0, _ => 0
  | fuel + 1, n => if n ≥ 2 then log2Fuel fuel (n / 2) + 1 else 0

/-- `Math.floor(Math.log2 n)` for a positive integer `n`: the exact binary
logarithm (for `1 ≤ n < 2 ^ 52` the double-precision `log2` is accurate enough
that its floor is exact). -/
def jsLog2Floor (n : Nat) : Nat := log2Fuel n n

/-- `BitWriter.writeUExpGolomb`. -/
def writeUExpGolomb (value : Nat) (w : BitWriter) : Option BitWriter :=
  if value = 0 then some (writeBit 1 w)
  else
    let code := value + 1
    let bits := jsLog2Floor code + 1
    let leadingZeros := bits - 1
    writeBits (code : Int) bits (writeBitList (List.replicate leadingZeros 0) w)

/-- `BitWriter.writeRice`: zig-zag to unsigned, then unary quotient and
`param` remainder bits. -/
def writeRice (value : Int) (param : Nat) (w : BitWriter) : Option BitWriter :=
  let unsigned : Int := if 0 ≤ value then value * 2 else (-value) * 2 - 1
  let quotient := jsShr unsigned param
  let remainder := jsAnd unsigned (jsShl 1 param - 1)
  writeBits remainder param (writeUnary quotient w)

/-- `BitWriter.getBuffer`: flush the partial byte with zero bits and return the
collected bytes (the source then restores the partial-byte state, which the
returned buffer does not depend on). -/
def getBuffer (w : BitWriter) : List Nat :=
  let flushBits := if w.bitPos > 0 then 8 - w.bitPos else 0
  (writeBitList (List.replicate flushBits 0) w).buffers

/-! ### BitReader (`bitstream.ts`, class `BitReader`) -/

structure BitReader where
  data : List Nat
  bytePos : Nat
  bitPos : Nat
deriving Repr, DecidableEq

/-- A `BitReader` positioned at the start of `data`. -/
def BitReader.start (data : List Nat) : BitReader := ⟨data, 0, 0⟩

/-- `BitReader.readBit` (throws — `none` — at end of buffer). -/
def readBit (r : BitReader) : Option (Nat × BitReader) :=
  if r.data.length ≤ r.bytePos then none
  else
    let bit := ((r.data.getD r.bytePos 0) >>> (7 - r.bitPos)) &&& 1
    if r.bitPos + 1 = 8 then some (bit, ⟨r.data, r.bytePos + 1, 0⟩)
    else some (bit, ⟨r.data, r.bytePos, r.bitPos + 1⟩)

/-- Accumulator loop of `BitReader.readBits`: `result = (result << 1) | bit`. -/
def readBitsGo : Nat → Int → BitReader → Option (Int × BitReader)
  | 0, res, r => some (res, r)
  | n + 1, res, r =>
    (readBit r).bind fun s => readBitsGo n (jsOr (jsShl res 1) (s.1 : Int)) s.2

/-- `BitReader.readBits` (throws when `count > 32`). -/
def readBits (count : Nat) (r : BitReader) : Option (Int × BitReader) :=
  if count > 32 then none else readBitsGo count 0 r

/-- Zero-counting loop of `readUnary`: reads bits until a one bit,
incrementing `count` per zero and throwing once `count > 32`.  The cap bounds
the loop at 32 iterations, which the structural `fuel` argument (passed as 33)
strictly dominates, so the fuel-exhaustion branch is unreachable. -/
def readUnaryGo : Nat → Nat → BitReader → Option (Nat × BitReader)
  | 0, _, _ => none
  | fuel + 1, count, r =>
    (readBit r).bind fun s =>
      if s.1 = 0 then
        if count + 1 > 32 then none else readUnaryGo fuel (count + 1) s.2
      else some (count, s.2)

/-- `BitReader.readUnary`. -/
def readUnary (r : BitReader) : Option (Nat × BitReader) := readUnaryGo 33 0 r

/-- Leading-zero loop of `readUExpGolomb` followed by the suffix read; mirrors
the source structure (its own loop with the `> 32` guard, then
`(1 << leadingZeros) - 1 + readBits(leadingZeros)`).  Fuel as in
`readUnaryGo`. -/
def readUExpGolombGo : Nat → Nat → BitReader → Option (Int × BitReader)
  | 0, _, _ => none
  | fuel + 1, lz, r =>
    (readBit r).bind fun s =>
      if s.1 = 0 then
        if lz + 1 > 32 then none else readUExpGolombGo fuel (lz + 1) s.2
      else
        if lz = 0 then some (0, s.2)
        else (readBits lz s.2).map fun t => (jsShl 1 lz - 1 + t.1, t.2)

/-- `BitReader.readUExpGolomb`. -/
def readUExpGolomb (r : BitReader) : Option (Int × BitReader) := readUExpGolombGo 33 0 r

/-- `BitReader.readRice`: unary quotient, `param` remainder bits, then zig-zag
decoding `(value >> 1) ^ -(value & 1)`. -/
def readRice (param : Nat) (r : BitReader) : Option (Int × BitReader) :=
  (readUnary r).bind fun q =>
    (readBits param q.2).map fun rem =>
      let value := jsOr (jsShl (q.1 : Int) param) rem.1
      (jsXor (jsShr value 1) (-(jsAnd value 1)), rem.2)

/-! ### Round-trip pipelines under test -/

/-- Unsigned Exp-Golomb round trip: write `u` into a fresh writer, assemble the
byte buffer, decode it from the start. -/
def uExpGolombRoundTrip (u : Nat) : Option Int :=
  (writeUExpGolomb u BitWriter.init).bind fun w =>
    (readUExpGolomb (BitReader.start (getBuffer w))).map Prod.fst

/-- Rice round trip at parameter `k`. -/
def riceRoundTrip (v : Int) (k : Nat) : Option Int :=
  (writeRice v k BitWriter.init).bind fun w =>
    (readRice k (BitReader.start (getBuffer w))).map Prod.fst

/-! ### CRC-32 (`bitstream.ts`, function `crc32`)

The source juggles signed (`^`) and unsigned (`>>> 1`) 32-bit views of `crc`;
both views share the same 32-bit pattern, which is the `Nat < 2 ^ 32` carried
here.  Defaults: polynomial `0xEDB88320`, init `0xFFFFFFFF`, and the final
`(~crc) >>> 0` is xor with the all-ones pattern. -/

def crc32Step (poly : Nat) (crc : Nat) : Nat :=
  if crc &&& 1 = 1 then (crc >>> 1) ^^^ poly else crc >>> 1

/-- One iteration of the outer loop: `crc ^= byte` then eight shift steps. -/
def crc32Byte (poly : Nat) (crc byte : Nat) : Nat :=
  (crc32Step poly)^[8] (crc ^^^ byte)

def crc32 (data : List Nat) (poly : Nat := 0xEDB88320) (init : Nat := 0xFFFFFFFF) : Nat :=
  (data.foldl (crc32Byte poly) init) ^^^ 0xFFFFFFFF

/-! ### Bit-sequence view of writer and reader states

Proof infrastructure (not part of the source): the list of bits a writer has
produced so far, the list of bits a reader has yet to consume, and the
MSB-first value of a bit list. -/

/-- The bit a `writeBit` call appends for argument `b`, namely `b & 1`. -/
def bitB (b : Nat) : Bool := decide (b &&& 1 = 1)

/-- The eight bits of a byte, most significant first. -/
def byteBits (b : Nat) : List Bool := (List.range 8).map (fun i => b.testBit (7 - i))

/-- All bits of a byte list, most significant bit of each byte first. -/
def bytesBits (bs : List Nat) : List Bool := (bs.map byteBits).flatten

/-- Every bit a `BitWriter` holds: completed bytes then the partial byte. -/
def wbits (w : BitWriter) : List Bool :=
  bytesBits w.buffers ++ (List.range w.bitPos).map (fun i => w.currentByte.testBit (w.bitPos - 1 - i))

/-- The bits a `BitReader` has not consumed yet. -/
def remBits (r : BitReader) : List Bool :=
  (bytesBits r.data).drop (8 * r.bytePos + r.bitPos)

/-- MSB-first value of a bit list. -/
def bitsToNat (bs : List Bool) : Nat :=
  bs.foldl (fun acc b => 2 * acc + (if b then 1 else 0)) 0

/-- The `n` low bits of `v`, most significant first. -/
def bitsBE (n v : Nat) : List Bool := (List.range n).map (fun j => v.testBit (n - 1 - j))

/-- Writer invariant: the partial byte fits in `bitPos` bits and `bitPos < 8`. -/
def WFw (w : BitWriter) : Prop := w.currentByte < 2 ^ w.bitPos ∧ w.bitPos < 8

/-- The zig-zag image `writeRice` maps a signed value to, as a natural number:
`2v` for `v ≥ 0` and `-2v - 1 = 2(-v) - 1` for `v < 0`. -/
def zigzag (v : Int) : Nat := if 0 ≤ v then 2 * v.toNat else 2 * (-v).toNat - 1

/-- Reader invariant: the bit cursor within the current byte is in range. -/
def WFr (r : BitReader) : Prop := r.bitPos < 8

/-! ### Byte buffers and the Reader (`reader.ts`)

A `Uint8Array` is embedded as a length plus an index function (mirroring that
JS `subarray` returns a view); `subarray` clamps both endpoints to the array
length exactly as JS does. -/

structure ByteArr where
  len : Nat
  get : Nat → Nat

/-- JS `TypedArray.subarray(b, e)`: both endpoints clamped to `[0, len]`,
empty when they cross. -/
def ByteArr.subarray (a : ByteArr) (b e : Nat) : ByteArr :=
  ⟨min e a.len - min b a.len, fun i => a.get (min b a.len + i)⟩

/-- A byte buffer holding the bytes of `l` (reads out of range give 0; no
modelled path reads out of range). -/
def ByteArr.ofList (l : List Nat) : ByteArr := ⟨l.length, fun i => l.getD i 0⟩

/-- The bytes of a buffer as a list. -/
def ByteArr.toList (a : ByteArr) : List Nat := (List.range a.len).map a.get

/-- `FileSlice` (`reader.ts`): an owned byte window plus its absolute offset. -/
structure FileSlice where
  bytes : ByteArr
  offset : Nat

/-- `FileSlice.contains`. -/
def FileSlice.contains (s : FileSlice) (pos length : Nat) : Bool :=
  decide (s.offset ≤ pos) && decide (pos + length ≤ s.offset + s.bytes.len)

/-- `FileSlice.get` (only called when `contains` holds). -/
def FileSlice.get (s : FileSlice) (pos length : Nat) : ByteArr :=
  s.bytes.subarray (pos - s.offset) (pos - s.offset + length)

/-- `Reader` for a buffer source: the source bytes, the cursor, the cached
slice.  (File/URL/stream sources perform I/O and are outside this model.) -/
structure Reader where
  source : ByteArr
  pos : Nat
  slice : Option FileSlice

/-- A fresh reader over a buffer source (`Reader.fromBuffer`), cursor at 0. -/
def Reader.fromSource (src : ByteArr) : Reader := ⟨src, 0, none⟩

def DEFAULT_SLICE_SIZE : Nat := 64 * 1024

/-- `Reader.loadSlice` for a buffer source: cache
`sourceData.subarray(offset, min(offset + length, size))`. -/
def loadSlice (r : Reader) (offset length : Nat) : Reader :=
  let e := min (offset + length) r.source.len
  { r with slice := some ⟨r.source.subarray offset e, offset⟩ }

/-- Slow path of `Reader.readBytes`: reload the slice at the cursor, re-check
containment, and return `null` (leaving the cursor in place) if the request
still cannot be satisfied. -/
def readBytesSlow (length : Nat) (r : Reader) : Option ByteArr × Reader :=
  let r1 := loadSlice r r.pos (max length DEFAULT_SLICE_SIZE)
  match r1.slice with
  | some s =>
    if s.contains r1.pos length then
      (some (s.get r1.pos length), { r1 with pos := r1.pos + length })
    else (none, r1)
  | none => (none, r1)

/-- `Reader.readBytes`: serve from the cached slice when it contains the
request, otherwise reload and retry once. -/
def readBytes (length : Nat) (r : Reader) : Option ByteArr × Reader :=
  match r.slice with
  | some s =>
    if s.contains r.pos length then
      (some (s.get r.pos length), { r with pos := r.pos + length })
    else readBytesSlow length r
  | none => readBytesSlow length r

/-- `Reader.skip`. -/
def Reader.skip (n : Nat) (r : Reader) : Reader := { r with pos := r.pos + n }

/-- Invariant of a buffer-source reader: whatever slice is cached is a window
of the source — each cached byte is the source byte at its absolute offset,
which lies inside the source.  Freshly created readers (no slice) satisfy it,
and `loadSlice` maintains it. -/
def ReaderWF (r : Reader) : Prop :=
  ∀ s, r.slice = some s → ∀ i, i < s.bytes.len →
    s.offset + i < r.source.len ∧ s.bytes.get i = r.source.get (s.offset + i)

/-- `Reader.readU16LE`: `bytes[0] | (bytes[1] << 8)` (a signed 32-bit value in
JS, always in `[0, 2^16)` for byte inputs). -/
def readU16LE (r : Reader) : Option Int × Reader :=
  match readBytes 2 r with
  | (some bytes, r') => (some (jsOr (bytes.get 0 : Int) (jsShl (bytes.get 1 : Int) 8)), r')
  | (none, r') => (none, r')

/-- `Reader.readU32BE`: `((b0 << 24) | (b1 << 16) | (b2 << 8) | b3) >>> 0`. -/
def readU32BE (r : Reader) : Option Nat × Reader :=
  match readBytes 4 r with
  | (some bytes, r') =>
    (some (jsToUint32 (jsOr (jsOr (jsOr (jsShl (bytes.get 0 : Int) 24)
      (jsShl (bytes.get 1 : Int) 16)) (jsShl (bytes.get 2 : Int) 8)) (bytes.get 3 : Int))), r')
  | (none, r') => (none, r')

/-- `Reader.readU32LE`: `(b0 | (b1 << 8) | (b2 << 16) | (b3 << 24)) >>> 0`. -/
def readU32LE (r : Reader) : Option Nat × Reader :=
  match readBytes 4 r with
  | (some bytes, r') =>
    (some (jsToUint32 (jsOr (jsOr (jsOr (bytes.get 0 : Int)
      (jsShl (bytes.get 1 : Int) 8)) (jsShl (bytes.get 2 : Int) 16)) (jsShl (bytes.get 3 : Int) 24))), r')
  | (none, r') => (none, r')

/-- `Reader.readFourCC`: four bytes, kept as raw byte values (the source builds
the corresponding ASCII string). -/
def readFourCC (r : Reader) : Option (List Nat) × Reader :=
  match readBytes 4 r with
  | (some bytes, r') => (some [bytes.get 0, bytes.get 1, bytes.get 2, bytes.get 3], r')
  | (none, r') => (none, r')

/-! ### Base muxer (`muxer.ts`) instantiated with the MP3 format (`Mp3Muxer`)

The base class serialises `writePacket`/`finalize` through an async mutex; in
this single-caller model each public call is one atomic step.  The writer is a
buffer-target `Writer` (`writer.ts`): a fragment list flushed on `close`.  The
MP3 format methods: `writeHeader` is a no-op, `writeAudioPacket` collects the
payload in `packets`, `writeTrailer` writes all collected payloads.  Track
configs and the muxer's sampleRate/channels/bitrate mirrors are not modelled:
no modelled code path reads them. -/

structure WriterState where
  buffers : List (List Nat)
  pos : Nat
deriving Repr, DecidableEq

/-- `Writer.writeBytes` (buffer target): push a copy of the fragment. -/
def writerWriteBytes (data : List Nat) (w : WriterState) : WriterState :=
  ⟨w.buffers ++ [data], w.pos + data.length⟩

/-- `Writer.close` (buffer target): the concatenated fragments. -/
def writerClose (w : WriterState) : List Nat := w.buffers.flatten

/-- `EncodedPacket` restricted to the payload: timing fields are never read by
the modelled muxer paths. -/
structure EncodedPacket where
  data : List Nat
deriving Repr, DecidableEq

structure Mp3MuxerState where
  writer : WriterState
  tracks : List Nat
  nextTrackId : Nat
  headerWritten : Bool
  finalized : Bool
  packets : List (List Nat)
deriving Repr, DecidableEq

/-- A freshly constructed muxer: no tracks, ids start at 1, nothing written. -/
def Mp3MuxerState.init : Mp3MuxerState := ⟨⟨[], 0⟩, [], 1, false, false, []⟩

/-- `Muxer.addAudioTrack`: assign the next id and record the track. -/
def addAudioTrack (m : Mp3MuxerState) : Nat × Mp3MuxerState :=
  (m.nextTrackId,
   { m with tracks := m.tracks ++ [m.nextTrackId], nextTrackId := m.nextTrackId + 1 })

/-- `Mp3Muxer.writeHeader`: a no-op. -/
def mp3WriteHeader (m : Mp3MuxerState) : Mp3MuxerState := m

/-- `Mp3Muxer.writeAudioPacket`: collect the payload. -/
def mp3WriteAudioPacket (packet : EncodedPacket) (m : Mp3MuxerState) : Mp3MuxerState :=
  { m with packets := m.packets ++ [packet.data] }

/-- `Mp3Muxer.writeTrailer`: write every collected payload to the writer. -/
def mp3WriteTrailer (m : Mp3MuxerState) : Mp3MuxerState :=
  { m with writer := m.packets.foldl (fun w d => writerWriteBytes d w) m.writer }

inductive MuxError where
  | trackNotFound
  | alreadyFinalized
deriving Repr, DecidableEq

/-- `Muxer.writePacket`: lazily emit the header, look the track up (throwing
when absent), then delegate to the format's `writeAudioPacket`.  There is no
`finalized` check on this path. -/
def writePacket (trackId : Nat) (packet : EncodedPacket) (m : Mp3MuxerState) :
    Except MuxError Mp3MuxerState :=
  let m1 := if m.headerWritten then m else { mp3WriteHeader m with headerWritten := true }
  if trackId ∈ m1.tracks then Except.ok (mp3WriteAudioPacket packet m1)
  else Except.error MuxError.trackNotFound

/-- `Muxer.finalize`: throw when already finalized, otherwise emit the header
if pending, write the trailer, mark finalized and close the writer. -/
def finalize (m : Mp3MuxerState) : Except MuxError (List Nat × Mp3MuxerState) :=
  if m.finalized then Except.error MuxError.alreadyFinalized
  else
    let m1 := if m.headerWritten then m else { mp3WriteHeader m with headerWritten := true }
    let m2 := mp3WriteTrailer m1
    let m3 := { m2 with finalized := true }
    Except.ok (writerClose m3.writer, m3)

/-! ### FLAC STREAMINFO (`parseStreamInfo` in the FLAC package)

The input bytes come from a `Uint8Array` (entries `< 256`), on which the JS
32-bit coercions in the source are the identity, so plain `Nat` bit operations
embed them.  The `bitsPerSample` line reproduces the source expression
`((data[12] & 0x01) << 4) | (data[13] >> 4) + 1` with JavaScript operator
precedence: `+` binds tighter than `|`. -/

structure FlacStreamInfo where
  minBlockSize : Nat
  maxBlockSize : Nat
  minFrameSize : Nat
  maxFrameSize : Nat
  sampleRate : Nat
  channels : Nat
  bitsPerSample : Nat
  totalSamples : Nat
  md5 : List Nat
deriving Repr, DecidableEq

def parseStreamInfo (data : List Nat) : FlacStreamInfo :=
  let d := fun i => data.getD i 0
  { minBlockSize := 256 * d 0 + d 1
    maxBlockSize := 256 * d 2 + d 3
    minFrameSize := (d 4 <<< 16) ||| (d 5 <<< 8) ||| d 6
    maxFrameSize := (d 7 <<< 16) ||| (d 8 <<< 8) ||| d 9
    sampleRate := (d 10 <<< 12) ||| (d 11 <<< 4) ||| (d 12 >>> 4)
    channels := ((d 12 >>> 1) &&& 0x07) + 1
    bitsPerSample := ((d 12 &&& 0x01) <<< 4) ||| ((d 13 >>> 4) + 1)
    totalSamples := ((d 13 &&& 0x0F) <<< 32) |||
      ((d 14 <<< 24) ||| (d 15 <<< 16) ||| (d 16 <<< 8) ||| d 17)
    md5 := (List.range 16).map (fun i => d (18 + i)) }

/-! ### MP3 frame headers (`parseFrameHeader` in the MP3 package) -/

inductive MpegVersion where
  | mpeg1
  | mpeg2
  | mpeg2_5
deriving Repr, DecidableEq

inductive MpegLayer where
  | layer1
  | layer2
  | layer3
deriving Repr, DecidableEq

inductive ChannelMode where
  | stereo
  | jointStereo
  | dualChannel
  | mono
deriving Repr, DecidableEq

def MPEG_VERSIONS : List (Option MpegVersion) :=
  [some .mpeg2_5, none, some .mpeg2, some .mpeg1]

def LAYERS : List (Option MpegLayer) :=
  [none, some .layer3, some .layer2, some .layer1]

/-- The `BITRATES` record, keyed by version and layer; the source only ever
looks keys `MPEG1-*` and `MPEG2-*` up (MPEG2.5 is remapped by the caller), so
the `mpeg2_5` rows are unreachable and empty here. -/
def BITRATES (v : MpegVersion) (l : MpegLayer) : List (Option Nat) :=
  match v, l with
  | .mpeg1, .layer1 =>
    [none, some 32, some 64, some 96, some 128, some 160, some 192, some 224,
     some 256, some 288, some 320, some 352, some 384, some 416, some 448, none]
  | .mpeg1, .layer2 =>
    [none, some 32, some 48, some 56, some 64, some 80, some 96, some 112,
     some 128, some 160, some 192, some 224, some 256, some 320, some 384, none]
  | .mpeg1, .layer3 =>
    [none, some 32, some 40, some 48, some 56, some 64, some 80, some 96,
     some 112, some 128, some 160, some 192, some 224, some 256, some 320, none]
  | .mpeg2, .layer1 =>
    [none, some 32, some 48, some 56, some 64, some 80, some 96, some 112,
     some 128, some 144, some 160, some 176, some 192, some 224, some 256, none]
  | .mpeg2, .layer2 =>
    [none, some 8, some 16, some 24, some 32, some 40, some 48, some 56,
     some 64, some 80, some 96, some 112, some 128, some 144, some 160, none]
  | .mpeg2, .layer3 =>
    [none, some 8, some 16, some 24, some 32, some 40, some 48, some 56,
     some 64, some 80, some 96, some 112, some 128, some 144, some 160, none]
  | .mpeg2_5, _ => []

def SAMPLE_RATES (v : MpegVersion) : List (Option Nat) :=
  match v with
  | .mpeg1 => [some 44100, some 48000, some 32000, none]
  | .mpeg2 => [some 22050, some 24000, some 16000, none]
  | .mpeg2_5 => [some 11025, some 12000, some 8000, none]

def SAMPLES_PER_FRAME (v : MpegVersion) (l : MpegLayer) : Nat :=
  match v, l with
  | _, .layer1 => 384
  | _, .layer2 => 1152
  | .mpeg1, .layer3 => 1152
  | .mpeg2, .layer3 => 576
  | .mpeg2_5, .layer3 => 576

def CHANNEL_MODES : List ChannelMode := [.stereo, .jointStereo, .dualChannel, .mono]

structure Mp3FrameHeader where
  version : MpegVersion
  layer : MpegLayer
  hasCrc : Bool
  bitrate : Nat
  sampleRate : Nat
  padding : Bool
  channelMode : ChannelMode
  channels : Nat
  samplesPerFrame : Nat
  frameSize : Int
deriving Repr, DecidableEq

/-- `parseFrameHeader(data, offset)`.  All header-byte bit operations act on
values `< 256`, where the JS coercions are the identity.  The frame-size
arithmetic is floating point in the source; it is modelled exactly in `ℚ`,
which agrees with IEEE doubles here because `12·br·1000/sr` is at distance at
least `1/sr ≥ 1/48000` from any other rational with denominator `sr`, far
above the double rounding error. -/
def parseFrameHeader (data : List Nat) (offset : Nat) : Option Mp3FrameHeader :=
  if data.length < offset + 4 then none
  else
    let h0 := data.getD offset 0
    let h1 := data.getD (offset + 1) 0
    let h2 := data.getD (offset + 2) 0
    let h3 := data.getD (offset + 3) 0
    if h0 = 0xFF ∧ h1 &&& 0xE0 = 0xE0 then
      let versionBits := (h1 >>> 3) &&& 0x03
      let layerBits := (h1 >>> 1) &&& 0x03
      let protectionBit := h1 &&& 0x01
      let bitrateBits := (h2 >>> 4) &&& 0x0F
      let sampleRateBits := (h2 >>> 2) &&& 0x03
      let paddingBit := (h2 >>> 1) &&& 0x01
      let channelModeBits := (h3 >>> 6) &&& 0x03
      match MPEG_VERSIONS.getD versionBits none, LAYERS.getD layerBits none with
      | some version, some layer =>
        let bitrateVersion := if version = .mpeg2_5 then MpegVersion.mpeg2 else version
        match (BITRATES bitrateVersion layer).getD bitrateBits none,
              (SAMPLE_RATES version).getD sampleRateBits none with
        | some bitrate, some sampleRate =>
          if bitrate = 0 ∨ sampleRate = 0 then none
          else
            let samplesPerFrame := SAMPLES_PER_FRAME version layer
            let channelMode := CHANNEL_MODES.getD channelModeBits .stereo
            let channels := if channelMode = .mono then 1 else 2
            let pad : ℚ := if paddingBit = 1 then 1 else 0
            let frameSize : Int :=
              if layer = .layer1 then
                ⌊((12 * bitrate * 1000 : ℚ) / sampleRate + pad) * 4⌋
              else
                let slotSize : ℚ := if layer = .layer3 ∧ version ≠ .mpeg1 then 72 else 144
                ⌊slotSize * bitrate * 1000 / sampleRate + pad⌋
            some { version, layer, hasCrc := protectionBit = 0,
                   bitrate := bitrate * 1000, sampleRate,
                   padding := paddingBit = 1, channelMode, channels,
                   samplesPerFrame, frameSize }
        | _, _ => none
      | _, _ => none
    else none

/-! ### AAC (ADTS) muxer packet path (`AacMuxer.writeAudioPacket`,
`createAdtsHeader`, `getSampleRateIndex` in the AAC package) -/

def AAC_SAMPLE_RATES : List (Option Nat) :=
  [some 96000, some 88200, some 64000, some 48000, some 44100, some 32000,
   some 24000, some 22050, some 16000, some 12000, some 11025, some 8000,
   some 7350, none, none, none]

/-- `getSampleRateIndex`: `indexOf`, falling back to index 4 (44100 Hz). -/
def getSampleRateIndex (sampleRate : Nat) : Nat :=
  match AAC_SAMPLE_RATES.indexOf? (some sampleRate) with
  | some i => i
  | none => 4

/-- `createAdtsHeader(profile, sampleRateIndex, channels, frameLength)`: the
seven header bytes (MPEG-4, layer 0, no CRC, VBR buffer fullness, zero raw
data blocks). -/
def createAdtsHeader (profile sampleRateIndex channels frameLength : Nat) : List Nat :=
  [0xFF,
   0xF1,
   ((profile &&& 0x03) <<< 6) ||| ((sampleRateIndex &&& 0x0F) <<< 2) ||| ((channels >>> 2) &&& 0x01),
   ((channels &&& 0x03) <<< 6) ||| ((frameLength >>> 11) &&& 0x03),
   (frameLength >>> 3) &&& 0xFF,
   ((frameLength &&& 0x07) <<< 5) ||| 0x1F,
   0xFC]

/-- The non-pass-through branch of `AacMuxer.writeAudioPacket`: a fresh 7-byte
header for `frameLength = 7 + data.length`, followed by the payload. -/
def aacPrependHeader (sampleRate channels profile : Nat) (data : List Nat) : List Nat :=
  createAdtsHeader profile (getSampleRateIndex sampleRate) channels (7 + data.length) ++ data

/-- `AacMuxer.writeAudioPacket` as a payload transformation.  The sync test is
`packet.data[0] === 0xFF && (packet.data[1] & 0xF0) === 0xF0`; for packets
shorter than two bytes the out-of-range reads give `undefined`, the test is
false, and the header is prepended. -/
def aacWriteAudioPacket (sampleRate channels profile : Nat) (data : List Nat) : List Nat :=
  match data with
  | b0 :: b1 :: _ =>
    if b0 = 0xFF ∧ b1 &&& 0xF0 = 0xF0 then data
    else aacPrependHeader sampleRate channels profile data
  | _ => aacPrependHeader sampleRate channels profile data

/-! ### WAV / RF64 demuxer initialisation (`WavDemuxer.init` and helpers)

Modelled for a buffer source through the `Reader` above.  The INFO-tag to
metadata mapping and the track record's string fields are not needed by any
claim; the raw INFO tuples and the numeric track parameters are kept.
Where the source stores a field from a failed (`null`) read through a `!`
assertion, the model returns `none` from the helper; no modelled input reaches
those reads at end of buffer. -/

def RIFF_MAGIC : Nat := 0x52494646
def RF64_MAGIC : Nat := 0x52463634
def WAVE_MAGIC : Nat := 0x57415645
def FMT_MAGIC : Nat := 0x666D7420
def DATA_MAGIC : Nat := 0x64617461
def DS64_MAGIC : Nat := 0x64733634
def LIST_MAGIC : Nat := 0x4C495354
def INFO_MAGIC : Nat := 0x494E464F
def RF64_SIZE_PLACEHOLDER : Nat := 0xFFFFFFFF

inductive AudioCodec where
  | pcm
  | alaw
  | ulaw
deriving Repr, DecidableEq

inductive SampleFormat where
  | u8
  | s16
  | s24
  | s32
  | f32
  | f64
deriving Repr, DecidableEq

/-- `formatCodeToCodec`. -/
def formatCodeToCodec (code : Int) : AudioCodec :=
  if code = 0x0001 then .pcm
  else if code = 0x0003 then .pcm
  else if code = 0x0006 then .alaw
  else if code = 0x0007 then .ulaw
  else .pcm

structure WavFormat where
  formatCode : Int
  channels : Int
  sampleRate : Int
  byteRate : Int
  blockAlign : Int
  bitsPerSample : Int
  validBitsPerSample : Option Int
  channelMask : Option Nat
  subFormat : Option ByteArr

/-- `formatToSampleFormat`. -/
def formatToSampleFormat (f : WavFormat) : SampleFormat :=
  if f.formatCode = 0x0003 then (if f.bitsPerSample = 64 then .f64 else .f32)
  else if f.bitsPerSample = 8 then .u8
  else if f.bitsPerSample = 16 then .s16
  else if f.bitsPerSample = 24 then .s24
  else if f.bitsPerSample = 32 then .s32
  else .s16

structure RiffChunk where
  id : Nat
  size : Nat
  offset : Nat
deriving Repr, DecidableEq

structure Ds64Chunk where
  riffSize : Nat
  dataSize : Nat
  sampleCount : Nat
  tableLength : Nat
deriving Repr, DecidableEq

/-- `WavDemuxer.parseFmtChunk`. -/
def parseFmtChunk (size : Nat) (r : Reader) : Option WavFormat × Reader :=
  let (formatCode?, r1) := readU16LE r
  let (channels?, r2) := readU16LE r1
  let (sampleRate?, r3) := readU32LE r2
  let (byteRate?, r4) := readU32LE r3
  let (blockAlign?, r5) := readU16LE r4
  let (bitsPerSample?, r6) := readU16LE r5
  match formatCode?, channels?, sampleRate?, byteRate?, blockAlign?, bitsPerSample? with
  | some formatCode, some channels, some sampleRate, some byteRate,
    some blockAlign, some bitsPerSample =>
    let base : WavFormat :=
      { formatCode, channels, sampleRate := (sampleRate : Int),
        byteRate := (byteRate : Int), blockAlign, bitsPerSample,
        validBitsPerSample := none, channelMask := none, subFormat := none }
    if size > 16 then
      let (extSize?, r7) := readU16LE r6
      match extSize? with
      | some extSize =>
        if extSize ≠ 0 ∧ extSize ≥ 22 ∧ formatCode = 0xFFFE then
          let (validBits?, r8) := readU16LE r7
          let (channelMask?, r9) := readU32LE r8
          let (subFormat?, r10) := readBytes 16 r9
          (some { base with validBitsPerSample := validBits?,
                            channelMask := channelMask?, subFormat := subFormat? }, r10)
        else (some base, r7)
      | none => (some base, r7)
    else (some base, r6)
  | _, _, _, _, _, _ => (none, r6)

/-- `WavDemuxer.parseDs64Chunk`: three 64-bit values as low/high 32-bit pairs,
then the table length; any table entries are skipped. -/
def parseDs64Chunk (size : Nat) (r : Reader) : Option Ds64Chunk × Reader :=
  let (riffSizeLow?, r1) := readU32LE r
  let (riffSizeHigh?, r2) := readU32LE r1
  let (dataSizeLow?, r3) := readU32LE r2
  let (dataSizeHigh?, r4) := readU32LE r3
  let (sampleCountLow?, r5) := readU32LE r4
  let (sampleCountHigh?, r6) := readU32LE r5
  let (tableLength?, r7) := readU32LE r6
  match riffSizeLow?, riffSizeHigh?, dataSizeLow?, dataSizeHigh?,
        sampleCountLow?, sampleCountHigh?, tableLength? with
  | some rl, some rh, some dl, some dh, some sl, some sh, some tl =>
    let chunk : Ds64Chunk :=
      { riffSize := rl ||| (rh <<< 32), dataSize := dl ||| (dh <<< 32),
        sampleCount := sl ||| (sh <<< 32), tableLength := tl }
    let r8 := if size > 28 ∧ tl > 0 then Reader.skip (size - 28) r7 else r7
    (some chunk, r8)
  | _, _, _, _, _, _, _ => (none, r7)

/-- Loop of `WavDemuxer.parseInfoChunk`: `{fourCC, u32 LE size, data}` tuples,
each value cut at its first NUL, 16-bit aligned. -/
def parseInfoChunkGo (fuel : Nat) (endPos : Nat) (acc : List (List Nat × List Nat))
    (r : Reader) : List (List Nat × List Nat) × Reader :=
  match fuel with
  | 0 => (acc, r)
  | fuel + 1 =>
    if r.pos < endPos - 8 then
      let (tagId?, r1) := readFourCC r
      let (tagSize?, r2) := readU32LE r1
      match tagId?, tagSize? with
      | some tagId, some tagSize =>
        let (tagData?, r3) := readBytes tagSize r2
        let acc' := match tagData? with
          | some tagData => acc ++ [(tagId, tagData.toList.takeWhile (fun b => b ≠ 0))]
          | none => acc
        let r4 := if tagSize % 2 = 1 then Reader.skip 1 r3 else r3
        parseInfoChunkGo fuel endPos acc' r4
      | _, _ => (acc, r2)
    else (acc, r)

/-- `WavDemuxer.parseInfoChunk`. -/
def parseInfoChunk (size : Nat) (r : Reader) :
    List (List Nat × List Nat) × Reader :=
  parseInfoChunkGo (size + 1) (r.pos + size) [] r

/-- Chunk-walking loop of `WavDemuxer.init`: read id and size, substitute the
ds64 size for an RF64 `data` placeholder, dispatch on the chunk id, then jump
to the 16-bit-aligned end of the chunk when the handler did not already pass
it. -/
def wavChunkLoop (fuel : Nat) (endPosition : Nat) (isRf64 : Bool)
    (ds64 : Option Ds64Chunk) (fmt : Option WavFormat) (dataChunk : Option RiffChunk)
    (info : List (List Nat × List Nat)) (r : Reader) :
    Option WavFormat × Option RiffChunk × List (List Nat × List Nat) × Reader :=
  match fuel with
  | 0 => (fmt, dataChunk, info, r)
  | fuel + 1 =>
    if r.pos < endPosition then
      let (chunkId?, r1) := readU32BE r
      let (chunkSize0?, r2) := readU32LE r1
      match chunkId?, chunkSize0? with
      | some chunkId, some chunkSize0 =>
        let chunkSize :=
          if isRf64 then
            match ds64 with
            | some d =>
              if chunkSize0 = RF64_SIZE_PLACEHOLDER ∧ chunkId = DATA_MAGIC then d.dataSize
              else chunkSize0
            | none => chunkSize0
          else chunkSize0
        let chunkOffset := r2.pos
        let next :=
          if chunkId = FMT_MAGIC then
            let (fmtRes, r3) := parseFmtChunk chunkSize r2
            (fmtRes, dataChunk, info, r3)
          else if chunkId = DATA_MAGIC then
            let actualSize :=
              if isRf64 then
                match ds64 with
                | some d => if chunkSize = RF64_SIZE_PLACEHOLDER then d.dataSize else chunkSize
                | none => chunkSize
              else chunkSize
            (fmt, some { id := chunkId, size := actualSize, offset := chunkOffset }, info, r2)
          else if chunkId = DS64_MAGIC then
            (fmt, dataChunk, info, r2)
          else if chunkId = LIST_MAGIC then
            let (listType?, rA) := readU32BE r2
            if listType? = some INFO_MAGIC then
              let (info', rB) := parseInfoChunk (chunkSize - 4) rA
              (fmt, dataChunk, info', rB)
            else (fmt, dataChunk, info, rA)
          else (fmt, dataChunk, info, r2)
        let nextPos := chunkOffset + chunkSize + chunkSize % 2
        let r4 := if nextPos > next.2.2.2.pos then { next.2.2.2 with pos := nextPos } else next.2.2.2
        wavChunkLoop fuel endPosition isRf64 ds64 next.1 next.2.1 next.2.2.1 r4
      | _, _ => (fmt, dataChunk, info, r2)
    else (fmt, dataChunk, info, r)

inductive WavError where
  | missingRiff
  | missingWave
  | ds64NotFirst
  | truncatedDs64
  | missingFmt
  | missingData
deriving Repr, DecidableEq

structure WavInitResult where
  format : WavFormat
  dataChunk : RiffChunk
  ds64 : Option Ds64Chunk
  isRf64 : Bool
  info : List (List Nat × List Nat)
  bytesPerSample : ℚ
  totalSamples : ℚ
  duration : ℚ
  codec : AudioCodec
  sampleFormat : SampleFormat
  bitrate : Int

/-- `WavDemuxer.init` for a buffer source: magic checks, the mandatory leading
`ds64` chunk for RF64, the chunk walk, then the derived sample counts,
duration (`totalSamples / sampleRate` with
`totalSamples = dataSize / (bytesPerSample · channels)`) and track fields. -/
def wavInit (src : ByteArr) : Except WavError WavInitResult :=
  let r0 := Reader.fromSource src
  let (riffMagic?, r1) := readU32BE r0
  let isRf64 : Bool := riffMagic? = some RF64_MAGIC
  if riffMagic? ≠ some RF64_MAGIC ∧ riffMagic? ≠ some RIFF_MAGIC then
    Except.error WavError.missingRiff
  else
    let (fileSize?, r2) := readU32LE r1
    let (waveMagic?, r3) := readU32BE r2
    if waveMagic? ≠ some WAVE_MAGIC then Except.error WavError.missingWave
    else
      let ds64Step : Except WavError (Option Ds64Chunk × Nat × Reader) :=
        if isRf64 then
          let (ds64Id?, r4) := readU32BE r3
          let (ds64Size?, r5) := readU32LE r4
          match ds64Id?, ds64Size? with
          | some ds64Id, some ds64Size =>
            if ds64Id = DS64_MAGIC then
              match parseDs64Chunk ds64Size r5 with
              | (some d, r6) => Except.ok (some d, d.riffSize &&& 0xFFFFFFFF, r6)
              | (none, _) => Except.error WavError.truncatedDs64
            else Except.error WavError.ds64NotFirst
          | _, _ => Except.error WavError.ds64NotFirst
        else Except.ok (none, fileSize?.getD 0, r3)
      match ds64Step with
      | Except.error e => Except.error e
      | Except.ok (ds64, fileSize, rBody) =>
        let endPosition :=
          match ds64, isRf64 with
          | some d, true => d.riffSize + 8
          | _, _ => 8 + fileSize
        let (fmt?, dataChunk?, info, _) :=
          wavChunkLoop (endPosition + 1) endPosition isRf64 ds64 none none [] rBody
        match fmt? with
        | none => Except.error WavError.missingFmt
        | some fmt =>
          match dataChunk? with
          | none => Except.error WavError.missingData
          | some dataChunk =>
            let bytesPerSample : ℚ := (fmt.bitsPerSample : ℚ) / 8
            let totalSamples : ℚ := (dataChunk.size : ℚ) / (bytesPerSample * (fmt.channels : ℚ))
            let duration : ℚ := totalSamples / (fmt.sampleRate : ℚ)
            Except.ok
              { format := fmt, dataChunk, ds64, isRf64, info,
                bytesPerSample, totalSamples, duration,
                codec := formatCodeToCodec fmt.formatCode,
                sampleFormat := formatToSampleFormat fmt,
                bitrate := fmt.byteRate * 8 }

/-! ### Format probes (`canRead`) and `detectFormat`

`detectFormat` walks the registered input formats in registration order and
returns the first whose `canRead` accepts the source; the five formats are
registered as mp3, wav, flac, aac, ogg. -/

def FLAC_MAGIC : Nat := 0x664C6143
def OGG_MAGIC : Nat := 0x4F676753

/-- `Mp3InputFormat.canRead`: ten probe bytes, then the ID3 magic or an MP3
sync word validated by `parseFrameHeader`. -/
def mp3CanRead (src : ByteArr) : Bool :=
  match readBytes 10 (Reader.fromSource src) with
  | (none, _) => false
  | (some header, _) =>
    let h := header.toList
    if h.getD 0 0 = 0x49 ∧ h.getD 1 0 = 0x44 ∧ h.getD 2 0 = 0x33 then true
    else if h.getD 0 0 = 0xFF ∧ (h.getD 1 0) &&& 0xE0 = 0xE0 then
      (parseFrameHeader h 0).isSome
    else false

/-- `WavInputFormat.canRead`: RIFF or RF64 magic, skip the size, WAVE magic. -/
def wavCanRead (src : ByteArr) : Bool :=
  let (riff?, r1) := readU32BE (Reader.fromSource src)
  match riff? with
  | none => false
  | some riff =>
    if riff ≠ RIFF_MAGIC ∧ riff ≠ RF64_MAGIC then false
    else
      let (wave?, _) := readU32BE (Reader.skip 4 r1)
      wave? = some WAVE_MAGIC

/-- `FlacInputFormat.canRead`: the `fLaC` magic. -/
def flacCanRead (src : ByteArr) : Bool :=
  (readU32BE (Reader.fromSource src)).1 = some FLAC_MAGIC

/-- `AacInputFormat.canRead`: four probe bytes, ADTS sync with mask `0xF6`. -/
def aacCanRead (src : ByteArr) : Bool :=
  match readBytes 4 (Reader.fromSource src) with
  | (none, _) => false
  | (some header, _) =>
    decide (header.get 0 = 0xFF) && decide ((header.get 1) &&& 0xF6 = 0xF0)

/-- `OggInputFormat.canRead`: the `OggS` magic. -/
def oggCanRead (src : ByteArr) : Bool :=
  (readU32BE (Reader.fromSource src)).1 = some OGG_MAGIC

inductive FormatName where
  | mp3
  | wav
  | flac
  | aac
  | ogg
deriving Repr, DecidableEq

/-- The registered input formats, in registration order. -/
def inputFormats : List (FormatName × (ByteArr → Bool)) :=
  [(.mp3, mp3CanRead), (.wav, wavCanRead), (.flac, flacCanRead),
   (.aac, aacCanRead), (.ogg, oggCanRead)]

/-- `detectFormat`: the first registered format whose `canRead` accepts. -/
def detectFormat (src : ByteArr) : Option FormatName :=
  (inputFormats.find? (fun f => f.2 src)).map Prod.fst

/-! ### Concrete fixtures -/

/-- Little-endian 16-bit byte pair. -/
def u16leBytes (n : Nat) : List Nat := [n % 256, n / 256 % 256]

/-- Little-endian 32-bit byte quadruple. -/
def u32leBytes (n : Nat) : List Nat :=
  [n % 256, n / 256 % 256, n / 65536 % 256, n / 16777216 % 256]

/-- Header of the claim-C7 WAV file: RIFF size `36 + 176400`, a canonical
16-byte `fmt ` chunk (PCM, 1 channel, 44100 Hz, byte rate 88200, block align
2, 16 bits) and a `data` chunk of 176400 bytes (88200 16-bit mono samples). -/
def wavC7Header : List Nat :=
  [0x52, 0x49, 0x46, 0x46] ++ u32leBytes (36 + 176400) ++ [0x57, 0x41, 0x56, 0x45] ++
  [0x66, 0x6D, 0x74, 0x20] ++ u32leBytes 16 ++
  u16leBytes 1 ++ u16leBytes 1 ++ u32leBytes 44100 ++ u32leBytes 88200 ++
  u16leBytes 2 ++ u16leBytes 16 ++
  [0x64, 0x61, 0x74, 0x61] ++ u32leBytes 176400

/-- The claim-C7 WAV file: the 44-byte header followed by 176400 zero bytes of
sample data (`init` never reads the data payload). -/
def wavC7Source : ByteArr := ⟨44 + 176400, fun i => wavC7Header.getD i 0⟩

/-- An empty buffer source. -/
def emptySource : ByteArr := ByteArr.ofList []

/-- STREAMINFO payload with stored bits-per-sample field 31 (byte 12 odd, high
nibble of byte 13 all ones): bytes 0–9 give block/frame sizes, bytes 10–12
encode sample rate 44100 and 1 channel, byte 13 completes the 5-bit field. -/
def flacC4Payload : List Nat :=
  [0x10, 0x00, 0x10, 0x00, 0x00, 0x00, 0x00, 0x00, 0x00, 0x00,
   0x0A, 0xC4, 0x41, 0xF0, 0x00, 0x01, 0x86, 0xA0] ++ List.replicate 16 0

/-- MP3 frame header: sync, MPEG1, Layer 1, CRC absent, bitrate index 1
(32 kbps), sample-rate index 0 (44100 Hz), no padding, stereo. -/
def mp3C5Header : List Nat := [0xFF, 0xFF, 0x10, 0x00]

/-- A muxer that has had one track added, one packet written, and `finalize`
completed (the error branches below are unreachable). -/
def muxC1Finalized : Mp3MuxerState :=
  match finalize (match writePacket 1 ⟨[1, 2, 3]⟩ (addAudioTrack Mp3MuxerState.init).2 with
                  | Except.ok m => m
                  | Except.error _ => Mp3MuxerState.init) with
  | Except.ok p => p.2
  | Except.error _ => Mp3MuxerState.init

/-! ## Theorems -/

/-! ### Arithmetic facts about the JavaScript 32-bit embedding -/

theorem jsToUint32_ofNat {x : Nat} (h : x < 2 ^ 32) : jsToUint32 (x : Int) = x := by
  simp only [jsToUint32]
  rw [Int.emod_eq_of_lt (by positivity) (by exact_mod_cast h)]
  exact Int.toNat_ofNat x

theorem int32OfUint32_of_lt {x : Nat} (h : x < 2 ^ 31) : int32OfUint32 x = (x : Int) := by
  simp only [int32OfUint32, if_pos h]

theorem int32OfUint32_of_ge {x : Nat} (h : 2 ^ 31 ≤ x) :
    int32OfUint32 x = (x : Int) - 2 ^ 32 := by
  simp only [int32OfUint32, if_neg (Nat.not_lt.mpr h)]

/-! ### Claim C8: CRC-32 reference values -/

set_option maxRecDepth 4000 in
/-- C8. `crc32` with its default parameters returns 0 on the empty input and
`0xCBF43926` on the ASCII bytes of the string 123456789. -/
theorem crc32_reference_values :
    crc32 [] = 0 ∧
    crc32 [0x31, 0x32, 0x33, 0x34, 0x35, 0x36, 0x37, 0x38, 0x39] = 0xCBF43926 := by
  decide

/-! ### Claim C9: detectFormat on an empty source -/

/-- C9. On an empty (zero-byte) buffer source, every registered input format's
`canRead` returns `false`, and `detectFormat` returns no format (`none`)
without an error. -/
theorem detectFormat_empty_none :
    detectFormat emptySource = none ∧
    mp3CanRead emptySource = false ∧ wavCanRead emptySource = false ∧
    flacCanRead emptySource = false ∧ aacCanRead emptySource = false ∧
    oggCanRead emptySource = false := by
  decide

/-! ### Claim C4: FLAC STREAMINFO bits-per-sample -/

/-- C4. Code bug: for a STREAMINFO payload whose packed 5-bit bits-per-sample
field stores 31 (byte 12 odd, byte 13 high nibble 15), `parseStreamInfo`
returns 16 instead of the claimed 31 + 1 = 32: JavaScript parses
`((data[12] & 0x01) << 4) | (data[13] >> 4) + 1` with `+` binding tighter than
`|`, so the `+ 1` is absorbed by the bitwise or (`16 ||| 16 = 16`).  The other
fields of the same record decode as specified. -/
theorem parseStreamInfo_bitsPerSample_bug :
    (parseStreamInfo flacC4Payload).bitsPerSample = 16 ∧
    (((flacC4Payload.getD 12 0 &&& 0x01) <<< 4) ||| (flacC4Payload.getD 13 0 >>> 4)) + 1 = 32 ∧
    (parseStreamInfo flacC4Payload).channels = 1 ∧
    (parseStreamInfo flacC4Payload).sampleRate = 44100 := by
  decide

/-! ### Claim C5: MP3 Layer 1 frame size -/

set_option maxRecDepth 2000 in
unseal Rat.mul Rat.inv Rat.add in
/-- C5. Code bug: for the Layer 1 header `FF FF 10 00` (MPEG1, Layer 1,
32 kbps, 44100 Hz, no padding) the source computes
`Math.floor((12·br·1000/sr + padding) · 4) = 34` — the floor is taken after
the multiplication by 4 — while the claimed (and standard)
`⌊12·br·1000/sr + padding⌋ · 4` is 32.  The two agree only when the slot
count `12·br·1000/sr` has fractional part below 1/4. -/
theorem parseFrameHeader_layer1_frameSize_bug :
    (parseFrameHeader mp3C5Header 0).map (fun h => h.frameSize) = some 34 ∧
    ⌊(12 * 32 * 1000 : ℚ) / 44100⌋ * 4 = 32 := by
  constructor
  · decide
  · norm_num

/-! ### Claim C7: WAV duration for an 88200-sample mono 16-bit file -/

set_option maxRecDepth 4000 in
unseal Rat.mul Rat.inv Rat.add in
/-- C7 counterexample: on the 16-bit, 44100 Hz, mono WAV whose `data` chunk
holds 88200 samples (176400 bytes), `getDuration` is not 1.0. -/
theorem wavInit_duration_not_one :
    ¬ ((wavInit wavC7Source).toOption.map (fun res => res.duration) = some 1) := by
  decide

set_option maxRecDepth 4000 in
unseal Rat.mul Rat.inv Rat.add in
/-- C7 as amended: the WAV demuxer's duration for that file is exactly 2.0
(88200 samples at 44100 Hz): `init` computes
`duration = dataSize / (bytesPerSample · channels) / sampleRate
          = 176400 / (2 · 1) / 44100 = 2`. -/
theorem wavInit_duration_two :
    (wavInit wavC7Source).toOption.map (fun res => res.duration) = some 2 := by
  decide

/-! ### Claim C6: AAC muxer pass-through condition -/

/-- C6 counterexample: the payload `FF F2` is passed through unchanged by
`AacMuxer.writeAudioPacket` although `0xF2 & 0xF6 ≠ 0xF0` (the claim's layer
bits are nonzero): the muxer checks only `(data[1] & 0xF0) === 0xF0`. -/
theorem aacWriteAudioPacket_mask_counterexample :
    aacWriteAudioPacket 44100 2 1 [0xFF, 0xF2] = [0xFF, 0xF2] ∧
    ¬ (0xF2 &&& 0xF6 = 0xF0) := by
  decide

/-- C6 as amended: `AacMuxer.writeAudioPacket` passes a payload through
unchanged exactly when its first byte is `0xFF` and its second byte satisfies
`(b1 & 0xF0) == 0xF0` (mask `0xF0`, not the claimed `0xF6`); in every other
case — including payloads shorter than two bytes — it prepends the freshly
built 7-byte ADTS header. -/
theorem aacWriteAudioPacket_passthrough_iff (sampleRate channels profile : Nat)
    (data : List Nat) :
    aacWriteAudioPacket sampleRate channels profile data = data ↔
      ∃ b1 rest, data = 0xFF :: b1 :: rest ∧ b1 &&& 0xF0 = 0xF0 := by
  have hlen : ∀ d : List Nat,
      (aacPrependHeader sampleRate channels profile d).length = 7 + d.length := by
    intro d; simp [aacPrependHeader, createAdtsHeader]; omega
  have hne : ∀ d : List Nat, aacPrependHeader sampleRate channels profile d ≠ d := by
    intro d h
    have := congrArg List.length h
    rw [hlen] at this
    omega
  rcases data with _ | ⟨b0, _ | ⟨b1, rest⟩⟩
  · simp only [aacWriteAudioPacket]
    constructor
    · intro h; exact absurd h (hne [])
    · rintro ⟨_, _, h, -⟩; cases h
  · simp only [aacWriteAudioPacket]
    constructor
    · intro h; exact absurd h (hne [b0])
    · rintro ⟨_, _, h, -⟩; cases h
  · simp only [aacWriteAudioPacket]
    by_cases h : b0 = 0xFF ∧ b1 &&& 0xF0 = 0xF0
    · rw [if_pos h]
      simp only [true_iff]
      exact ⟨b1, rest, by rw [h.1], h.2⟩
    · rw [if_neg h]
      constructor
      · intro hc; exact absurd hc (hne (b0 :: b1 :: rest))
      · rintro ⟨b1', rest', heq, hmask⟩
        cases heq
        exact absurd ⟨rfl, hmask⟩ h

/-! ### Claim C1: muxer state after finalize -/

/-- C1 counterexample: after a completed `finalize`, a further `writePacket`
call on an existing track does not fail — the base `Muxer.writePacket` never
consults the `finalized` flag. -/
theorem writePacket_after_finalize_succeeds :
    muxC1Finalized.finalized = true ∧
    (writePacket 1 ⟨[9]⟩ muxC1Finalized).isOk = true := by
  decide

/-- C1 as amended: once a muxer is finalized, a second `finalize` fails with
the muxer-state error and nothing more is written, but `writePacket` for an
existing track still succeeds; it only appends to the muxer's internal packet
list and leaves the writer (whose output `finalize` already returned)
untouched. -/
theorem muxer_post_finalize (m : Mp3MuxerState) (p : EncodedPacket) (tid : Nat)
    (hfin : m.finalized = true) (hhdr : m.headerWritten = true)
    (htid : tid ∈ m.tracks) :
    writePacket tid p m = Except.ok (mp3WriteAudioPacket p m) ∧
    (mp3WriteAudioPacket p m).writer = m.writer ∧
    finalize m = Except.error MuxError.alreadyFinalized := by
  refine ⟨?_, rfl, ?_⟩
  · simp [writePacket, hhdr, htid]
  · simp [finalize, hfin]

/-- C1 witness: the amended statement applied to the concretely finalized
muxer. -/
theorem muxer_post_finalize_witness :
    muxC1Finalized.finalized = true ∧ muxC1Finalized.headerWritten = true ∧
    1 ∈ muxC1Finalized.tracks ∧
    (writePacket 1 ⟨[9]⟩ muxC1Finalized = Except.ok (mp3WriteAudioPacket ⟨[9]⟩ muxC1Finalized) ∧
     (mp3WriteAudioPacket ⟨[9]⟩ muxC1Finalized).writer = muxC1Finalized.writer ∧
     finalize muxC1Finalized = Except.error MuxError.alreadyFinalized) :=
  ⟨by decide, by decide, by decide,
   muxer_post_finalize muxC1Finalized ⟨[9]⟩ 1 (by decide) (by decide) (by decide)⟩


/-! ### Claim C10: Reader.readBytes is atomic in the cursor -/

theorem subarray_len (a : ByteArr) (b e : Nat) :
    (a.subarray b e).len = min e a.len - min b a.len := rfl

theorem subarray_get (a : ByteArr) (b e i : Nat) :
    (a.subarray b e).get i = a.get (min b a.len + i) := rfl

theorem readerWF_loadSlice (r : Reader) (offset length : Nat) :
    ReaderWF (loadSlice r offset length) := by
  intro s hs i hi
  simp only [loadSlice, Option.some.injEq] at hs
  subst hs
  simp only [subarray_len] at hi
  simp only [subarray_get, loadSlice]
  have h1 : min (offset + length) r.source.len ≤ r.source.len := Nat.min_le_right _ _
  have h2 : min offset r.source.len ≤ r.source.len := Nat.min_le_right _ _
  refine ⟨by omega, ?_⟩
  congr 1
  omega

theorem readBytesSlow_ok (r : Reader) (n : Nat) (h : r.pos + n ≤ r.source.len) :
    ∃ out r', readBytesSlow n r = (some out, r') ∧ out.len = n ∧
      (∀ i, i < n → out.get i = r.source.get (r.pos + i)) ∧
      r'.pos = r.pos + n ∧ r'.source = r.source ∧ ReaderWF r' := by
  have hglobals : r.pos + n ≤ min (r.pos + max n DEFAULT_SLICE_SIZE) r.source.len := by
    have := Nat.le_max_left n DEFAULT_SLICE_SIZE
    omega
  have hcont : (FileSlice.mk (r.source.subarray r.pos
      (min (r.pos + max n DEFAULT_SLICE_SIZE) r.source.len)) r.pos).contains r.pos n = true := by
    simp only [FileSlice.contains, Bool.and_eq_true, decide_eq_true_eq, subarray_len]
    omega
  simp only [readBytesSlow, loadSlice, hcont, if_true]
  refine ⟨_, _, rfl, ?_, ?_, rfl, rfl, ?_⟩
  · simp only [FileSlice.get, subarray_len]
    omega
  · intro i hi
    simp only [FileSlice.get, subarray_get, subarray_len]
    congr 1
    omega
  · have := readerWF_loadSlice r r.pos (max n DEFAULT_SLICE_SIZE)
    intro s hs i hi
    exact this s hs i hi

theorem readBytes_ok (r : Reader) (n : Nat) (hWF : ReaderWF r)
    (h : r.pos + n ≤ r.source.len) :
    ∃ out r', readBytes n r = (some out, r') ∧ out.len = n ∧
      (∀ i, i < n → out.get i = r.source.get (r.pos + i)) ∧
      r'.pos = r.pos + n ∧ r'.source = r.source ∧ ReaderWF r' := by
  rcases hslice : r.slice with - | s
  · have := readBytesSlow_ok r n h
    simpa only [readBytes, hslice] using this
  · by_cases hc : s.contains r.pos n = true
    · have hcp := hc
      simp only [FileSlice.contains, Bool.and_eq_true, decide_eq_true_eq] at hcp
      obtain ⟨hc1, hc2⟩ := hcp
      have hWFs := hWF s hslice
      simp only [readBytes, hslice, hc, if_true]
      refine ⟨_, _, rfl, ?_, ?_, rfl, rfl, ?_⟩
      · simp only [FileSlice.get, subarray_len]
        omega
      · intro i hi
        simp only [FileSlice.get, subarray_get]
        have hidx : r.pos - s.offset + i < s.bytes.len := by omega
        have hmin : min (r.pos - s.offset) s.bytes.len + i = r.pos - s.offset + i := by omega
        rw [hmin, (hWFs (r.pos - s.offset + i) hidx).2]
        congr 1
        omega
      · intro s' hs' i hi
        have hss : s' = s := by
          have := hs'
          simp only [Option.some.injEq] at this
          exact this.symm
        subst hss
        exact hWF s' hslice i hi
    · have := readBytesSlow_ok r n h
      simp only [Bool.not_eq_true] at hc
      simpa only [readBytes, hslice, hc, Bool.false_eq_true, if_false] using this

theorem readBytesSlow_none (r : Reader) (n : Nat) (h : r.source.len < r.pos + n)
    (hn : 0 < n) :
    ∃ r', readBytesSlow n r = (none, r') ∧ r'.pos = r.pos ∧ r'.source = r.source ∧
      ReaderWF r' := by
  have hcont : (FileSlice.mk (r.source.subarray r.pos
      (min (r.pos + max n DEFAULT_SLICE_SIZE) r.source.len)) r.pos).contains r.pos n = false := by
    have h1 : min (r.pos + max n DEFAULT_SLICE_SIZE) r.source.len ≤ r.source.len :=
      Nat.min_le_right _ _
    simp only [FileSlice.contains, Bool.and_eq_false_iff, decide_eq_false_iff_not,
      subarray_len, Nat.not_le]
    right
    omega
  simp only [readBytesSlow, loadSlice, hcont, Bool.false_eq_true, if_false]
  refine ⟨_, rfl, rfl, rfl, ?_⟩
  have := readerWF_loadSlice r r.pos (max n DEFAULT_SLICE_SIZE)
  intro s hs i hi
  exact this s hs i hi

theorem readBytes_none (r : Reader) (n : Nat) (hWF : ReaderWF r)
    (h : r.source.len < r.pos + n) (hn : 0 < n) :
    ∃ r', readBytes n r = (none, r') ∧ r'.pos = r.pos ∧ r'.source = r.source ∧
      ReaderWF r' := by
  rcases hslice : r.slice with - | s
  · have := readBytesSlow_none r n h hn
    simpa only [readBytes, hslice] using this
  · have hc : s.contains r.pos n = false := by
      have hWFs := hWF s hslice
      simp only [FileSlice.contains, Bool.and_eq_false_iff, decide_eq_false_iff_not, Nat.not_le]
      rcases Nat.eq_zero_or_pos s.bytes.len with hz | hpos
      · by_cases hop : s.offset ≤ r.pos
        · right; omega
        · left; omega
      · right
        have := (hWFs (s.bytes.len - 1) (by omega)).1
        omega
    have := readBytesSlow_none r n h hn
    simpa only [readBytes, hslice, hc, Bool.false_eq_true, if_false] using this

theorem readBytes_zero_len (r : Reader) (n : Nat) (hn : n = 0) :
    ∃ out r', readBytes n r = (some out, r') ∧ out.len = 0 ∧ r'.pos = r.pos := by
  subst hn
  rcases hslice : r.slice with - | s
  · have hcont : (FileSlice.mk (r.source.subarray r.pos
        (min (r.pos + max 0 DEFAULT_SLICE_SIZE) r.source.len)) r.pos).contains r.pos 0 = true := by
      simp only [FileSlice.contains, Bool.and_eq_true, decide_eq_true_eq]
      omega
    simp only [readBytes, hslice, readBytesSlow, loadSlice, hcont, if_true]
    refine ⟨_, _, rfl, ?_, rfl⟩
    simp only [FileSlice.get, subarray_len]
    omega
  · by_cases hc : s.contains r.pos 0 = true
    · simp only [readBytes, hslice, hc, if_true]
      refine ⟨_, _, rfl, ?_, rfl⟩
      simp only [FileSlice.get, subarray_len]
      omega
    · have hcont : (FileSlice.mk (r.source.subarray r.pos
          (min (r.pos + max 0 DEFAULT_SLICE_SIZE) r.source.len)) r.pos).contains r.pos 0 = true := by
        simp only [FileSlice.contains, Bool.and_eq_true, decide_eq_true_eq]
        omega
      simp only [Bool.not_eq_true] at hc
      simp only [readBytes, hslice, hc, Bool.false_eq_true, if_false,
        readBytesSlow, loadSlice, hcont, if_true]
      refine ⟨_, _, rfl, ?_, rfl⟩
      simp only [FileSlice.get, subarray_len]
      omega

/-- C10 as amended.  For a buffer source of size `S` with a well-formed cached
slice, at position `p`: when `p + n ≤ S`, `readBytes n` returns exactly the
`n` source bytes at offset `p` and advances the cursor to `p + n`; when
`p + n > S` and `n ≥ 1`, it returns `null` with the cursor unchanged, and a
subsequent `readBytes` of any fitting length `m` still succeeds with the `m`
bytes at `p`; when `n = 0`, the call always succeeds with an empty result
(even past end of source, where the claim expected `null`). -/
theorem readBytes_atomic (r : Reader) (n : Nat) (hWF : ReaderWF r) :
    (r.pos + n ≤ r.source.len →
      ∃ out r', readBytes n r = (some out, r') ∧ out.len = n ∧
        (∀ i, i < n → out.get i = r.source.get (r.pos + i)) ∧
        r'.pos = r.pos + n ∧ r'.source = r.source) ∧
    (r.source.len < r.pos + n → 0 < n →
      ∃ r', readBytes n r = (none, r') ∧ r'.pos = r.pos ∧ r'.source = r.source ∧
        ∀ m, r.pos + m ≤ r.source.len →
          ∃ out2 r2, readBytes m r' = (some out2, r2) ∧ out2.len = m ∧
            (∀ i, i < m → out2.get i = r.source.get (r.pos + i)) ∧
            r2.pos = r.pos + m) ∧
    (n = 0 →
      ∃ out r', readBytes n r = (some out, r') ∧ out.len = 0 ∧ r'.pos = r.pos) := by
  refine ⟨?_, ?_, readBytes_zero_len r n⟩
  · intro h
    obtain ⟨out, r', heq, hlen, hget, hpos, hsrc, -⟩ := readBytes_ok r n hWF h
    exact ⟨out, r', heq, hlen, hget, hpos, hsrc⟩
  · intro h hn
    obtain ⟨r', heq, hpos, hsrc, hWF'⟩ := readBytes_none r n hWF h hn
    refine ⟨r', heq, hpos, hsrc, ?_⟩
    intro m hm
    have hlen' : r'.source.len = r.source.len := by rw [hsrc]
    obtain ⟨out2, r2, heq2, hlen2, hget2, hpos2, hsrc2, -⟩ :=
      readBytes_ok r' m hWF' (by omega)
    refine ⟨out2, r2, heq2, hlen2, ?_, by omega⟩
    intro i hi
    rw [hget2 i hi, hsrc, hpos]

/-- C10 counterexample to the claim as stated: with a 3-byte source at
position 5, `readBytes(0)` has `p + n = 5 > 3 = S` yet returns an (empty)
byte array rather than `null`. -/
theorem readBytes_zero_past_eof_counterexample :
    ((readBytes 0 { source := ByteArr.ofList [10, 20, 30], pos := 5,
                    slice := none } : Option ByteArr × Reader).1).isSome = true := by
  decide

/-- C10 witness: the success case of `readBytes_atomic` on a concrete 3-byte
source. -/
theorem readBytes_atomic_witness :
    (Reader.fromSource (ByteArr.ofList [10, 20, 30])).pos + 2 ≤
      (Reader.fromSource (ByteArr.ofList [10, 20, 30])).source.len ∧
    (∃ out r', readBytes 2 (Reader.fromSource (ByteArr.ofList [10, 20, 30])) = (some out, r') ∧
      out.len = 2 ∧
      (∀ i, i < 2 → out.get i = (Reader.fromSource (ByteArr.ofList [10, 20, 30])).source.get
        ((Reader.fromSource (ByteArr.ofList [10, 20, 30])).pos + i)) ∧
      r'.pos = (Reader.fromSource (ByteArr.ofList [10, 20, 30])).pos + 2 ∧
      r'.source = (Reader.fromSource (ByteArr.ofList [10, 20, 30])).source) :=
  ⟨by decide,
   (readBytes_atomic (Reader.fromSource (ByteArr.ofList [10, 20, 30])) 2
     (fun s hs => Option.noConfusion hs)).1 (by decide)⟩

/-! ### Claims C2 and C3: bit-coding round trips

First the correspondence between the writer state and the bit sequence it has
produced, then the reader's consumption of that sequence, then the round-trip
theorems themselves. -/

theorem jsToUint32_zero : jsToUint32 0 = 0 := rfl

theorem jsToUint32_one : jsToUint32 1 = 1 := rfl

theorem jsToUint32_neg_one : jsToUint32 (-1) = 2 ^ 32 - 1 := by decide

theorem jsToInt32_ofNat {x : Nat} (h : x < 2 ^ 31) : jsToInt32 (x : Int) = (x : Int) := by
  rw [jsToInt32, jsToUint32_ofNat (by omega), int32OfUint32_of_lt h]

theorem jsShl_ofNat {x n : Nat} (hn : n ≤ 31) (h : x * 2 ^ n < 2 ^ 31) :
    jsShl (x : Int) n = ((x * 2 ^ n : Nat) : Int) := by
  have hx : x < 2 ^ 32 := by
    have h1 : x ≤ x * 2 ^ n := Nat.le_mul_of_pos_right x (Nat.two_pow_pos n)
    omega
  rw [jsShl, jsToUint32_ofNat hx, Nat.mod_eq_of_lt (by omega : n < 32),
    Nat.shiftLeft_eq, Nat.mod_eq_of_lt (by omega), int32OfUint32_of_lt h]

theorem jsOr_disjoint {q r n : Nat} (hr : r < 2 ^ n) (h : 2 ^ n * q + r < 2 ^ 31) :
    jsOr ((2 ^ n * q : Nat) : Int) ((r : Nat) : Int) = ((2 ^ n * q + r : Nat) : Int) := by
  rw [jsOr, jsToUint32_ofNat (by omega), jsToUint32_ofNat (by omega),
    ← Nat.mul_add_lt_is_or hr q, int32OfUint32_of_lt h]

theorem jsAnd_one {x : Nat} (hx : x < 2 ^ 32) :
    jsAnd (x : Int) 1 = ((x % 2 : Nat) : Int) := by
  rw [jsAnd, jsToUint32_ofNat hx, jsToUint32_one, Nat.and_one_is_mod,
    int32OfUint32_of_lt (by omega)]

theorem jsShr_ofNat {x n : Nat} (hx : x < 2 ^ 31) (hn : n ≤ 31) :
    jsShr (x : Int) n = ((x / 2 ^ n : Nat) : Int) := by
  rw [jsShr, jsToInt32_ofNat hx, Nat.mod_eq_of_lt (by omega : n < 32)]
  rw [show ((2 : Int) ^ n) = ((2 ^ n : Nat) : Int) by push_cast; rfl]
  exact (Int.ofNat_fdiv x (2 ^ n)).symm

theorem xor_two_pow_sub_one (n : Nat) : ∀ x, x < 2 ^ n → x ^^^ (2 ^ n - 1) = 2 ^ n - 1 - x := by
  induction n with
  | zero => intro x hx; interval_cases x; rfl
  | succ n ih =>
    intro x hx
    have hps : 2 ^ (n + 1) = 2 * 2 ^ n := by rw [Nat.pow_succ]; ring
    have hpp := Nat.two_pow_pos n
    have hx2 : x / 2 < 2 ^ n := by omega
    have hdiv : (x ^^^ (2 ^ (n + 1) - 1)) / 2 = 2 ^ n - 1 - x / 2 := by
      rw [Nat.xor_div_two]
      have h2 : (2 ^ (n + 1) - 1) / 2 = 2 ^ n - 1 := by omega
      rw [h2, ih (x / 2) hx2]
    have hmod : (x ^^^ (2 ^ (n + 1) - 1)) % 2 = 1 ↔ ¬ (x % 2 = 1) := by
      rw [Nat.xor_mod_two_eq_one]
      have h2 : (2 ^ (n + 1) - 1) % 2 = 1 := by omega
      constructor
      · intro h hq; exact h (iff_of_true hq (by omega))
      · intro h hq; exact h (hq.mpr (by omega))
    have hz2 : (x ^^^ (2 ^ (n + 1) - 1)) % 2 < 2 :=
      Nat.mod_lt _ (by omega)
    have := Nat.div_add_mod (x ^^^ (2 ^ (n + 1) - 1)) 2
    have hxd := Nat.div_add_mod x 2
    have hxm : x % 2 ≤ 1 := by omega
    rcases Nat.lt_or_ge (x % 2) 1 with hc | hc
    · have hx0 : x % 2 = 0 := by omega
      have : (x ^^^ (2 ^ (n + 1) - 1)) % 2 = 1 := hmod.mpr (by omega)
      omega
    · have hx1 : x % 2 = 1 := by omega
      have : ¬ ((x ^^^ (2 ^ (n + 1) - 1)) % 2 = 1) := fun hh => (hmod.mp hh) hx1
      have hm0 : (x ^^^ (2 ^ (n + 1) - 1)) % 2 = 0 := by omega
      omega

theorem jsXor_zero {m : Nat} (h : m < 2 ^ 31) : jsXor (m : Int) 0 = (m : Int) := by
  rw [jsXor, jsToUint32_ofNat (by omega), jsToUint32_zero, Nat.xor_zero,
    int32OfUint32_of_lt h]

theorem jsXor_neg_one {m : Nat} (h : m < 2 ^ 31) :
    jsXor (m : Int) (-1) = -(m : Int) - 1 := by
  rw [jsXor, jsToUint32_ofNat (by omega), jsToUint32_neg_one,
    xor_two_pow_sub_one 32 m (by omega),
    int32OfUint32_of_ge (by omega),
    Nat.cast_sub (by omega : m ≤ 2 ^ 32 - 1)]
  omega

theorem bytesBits_nil : bytesBits [] = [] := rfl

theorem bytesBits_cons (b : Nat) (t : List Nat) :
    bytesBits (b :: t) = byteBits b ++ bytesBits t := by
  simp [bytesBits]

theorem bytesBits_append (a b : List Nat) :
    bytesBits (a ++ b) = bytesBits a ++ bytesBits b := by
  simp [bytesBits]

theorem byteBits_length (b : Nat) : (byteBits b).length = 8 := by
  simp [byteBits]

theorem bytesBits_length (bs : List Nat) : (bytesBits bs).length = 8 * bs.length := by
  induction bs with
  | nil => rfl
  | cons b t ih =>
    rw [bytesBits_cons, List.length_append, byteBits_length, ih, List.length_cons]
    ring

theorem partial_bits_step (c v k : Nat) (hv : v < 2) :
    (List.range (k + 1)).map (fun i => (2 * c + v).testBit (k - i)) =
      (List.range k).map (fun i => c.testBit (k - 1 - i)) ++ [decide (v = 1)] := by
  rw [List.range_succ, List.map_append]
  congr 1
  · apply List.map_congr_left
    intro i hi
    rw [List.mem_range] at hi
    have hki : k - i = (k - 1 - i) + 1 := by omega
    rw [hki, Nat.testBit_succ]
    congr 1
    omega
  · simp only [List.map_cons, List.map_nil, Nat.sub_self, Nat.testBit_zero]
    have hm : (2 * c + v) % 2 = v := by omega
    rw [hm]

theorem wbits_writeBit (w : BitWriter) (b : Nat) (h : WFw w) :
    WFw (writeBit b w) ∧ wbits (writeBit b w) = wbits w ++ [bitB b] ∧
    (writeBit b w).bitPos = (w.bitPos + 1) % 8 := by
  obtain ⟨hcb, hbp⟩ := h
  have hv : b &&& 1 < 2 := by
    have := Nat.and_le_right (n := b) (m := 1)
    omega
  have hcbeq : (w.currentByte <<< 1) ||| (b &&& 1) = 2 * w.currentByte + (b &&& 1) := by
    rw [Nat.shiftLeft_eq, Nat.pow_one, Nat.mul_comm]
    rw [show 2 * w.currentByte = 2 ^ 1 * w.currentByte by ring]
    exact (Nat.mul_add_lt_is_or (by omega) w.currentByte).symm
  by_cases h8 : w.bitPos + 1 = 8
  · have hbp7 : w.bitPos = 7 := by omega
    unfold writeBit
    rw [if_pos h8]
    refine ⟨⟨?_, ?_⟩, ?_, ?_⟩
    · show (0 : Nat) < 2 ^ 0
      decide
    · show (0 : Nat) < 8
      decide
    · show bytesBits (w.buffers ++ [(w.currentByte <<< 1) ||| (b &&& 1)]) ++
        (List.range 0).map (fun i => (0 : Nat).testBit (0 - 1 - i)) = wbits w ++ [bitB b]
      rw [List.range_zero, List.map_nil, List.append_nil, bytesBits_append,
        bytesBits_cons, bytesBits_nil, List.append_nil, hcbeq]
      simp only [wbits, hbp7]
      rw [List.append_assoc]
      congr 1
      show (List.range 8).map (fun i => (2 * w.currentByte + (b &&& 1)).testBit (7 - i)) = _
      rw [show (8 : Nat) = 7 + 1 from rfl]
      have hstep := partial_bits_step w.currentByte (b &&& 1) 7 hv
      rw [hstep]
      rfl
    · show (0 : Nat) = (w.bitPos + 1) % 8
      omega
  · have hbp1 : w.bitPos + 1 < 8 := by omega
    have hps : 2 ^ (w.bitPos + 1) = 2 ^ w.bitPos * 2 := Nat.pow_succ 2 w.bitPos
    unfold writeBit
    rw [if_neg h8]
    refine ⟨⟨?_, ?_⟩, ?_, ?_⟩
    · show (w.currentByte <<< 1) ||| (b &&& 1) < 2 ^ (w.bitPos + 1)
      rw [hcbeq]
      omega
    · show w.bitPos + 1 < 8
      exact hbp1
    · show bytesBits w.buffers ++ (List.range (w.bitPos + 1)).map
        (fun i => ((w.currentByte <<< 1) ||| (b &&& 1)).testBit (w.bitPos + 1 - 1 - i)) =
        wbits w ++ [bitB b]
      simp only [wbits]
      rw [List.append_assoc]
      congr 1
      have hshape : (List.range (w.bitPos + 1)).map
          (fun i => ((w.currentByte <<< 1) ||| (b &&& 1)).testBit (w.bitPos + 1 - 1 - i)) =
          (List.range (w.bitPos + 1)).map
          (fun i => (2 * w.currentByte + (b &&& 1)).testBit (w.bitPos - i)) := by
        apply List.map_congr_left
        intro i hi
        rw [hcbeq]
        norm_num
      rw [hshape, partial_bits_step w.currentByte (b &&& 1) w.bitPos hv]
      rfl
    · show w.bitPos + 1 = (w.bitPos + 1) % 8
      omega

theorem writeBitList_spec (l : List Nat) (w : BitWriter) (h : WFw w) :
    WFw (writeBitList l w) ∧ wbits (writeBitList l w) = wbits w ++ l.map bitB ∧
    (writeBitList l w).bitPos = (w.bitPos + l.length) % 8 := by
  induction l generalizing w with
  | nil =>
    refine ⟨h, by simp [writeBitList], ?_⟩
    have h2 := h.2
    simp only [writeBitList, List.foldl_nil, List.length_nil, Nat.add_zero]
    omega
  | cons b t ih =>
    have hstep := wbits_writeBit w b h
    have hrec := ih (writeBit b w) hstep.1
    refine ⟨hrec.1, ?_, ?_⟩
    · show wbits (writeBitList t (writeBit b w)) = _
      rw [hrec.2.1, hstep.2.1, List.map_cons, List.append_assoc]
      rfl
    · show (writeBitList t (writeBit b w)).bitPos = _
      rw [hrec.2.2, hstep.2.2, List.length_cons]
      conv_rhs => rw [show w.bitPos + (t.length + 1) = (w.bitPos + 1) + t.length by ring]
      exact Nat.mod_add_mod (w.bitPos + 1) 8 t.length

theorem getBuffer_spec (w : BitWriter) (h : WFw w) :
    bytesBits (getBuffer w) = wbits w ++ List.replicate ((8 - w.bitPos) % 8) false := by
  have h2 := h.2
  by_cases h0 : w.bitPos = 0
  · have hflush : (if w.bitPos > 0 then 8 - w.bitPos else 0) = 0 := by
      rw [if_neg]; omega
    unfold getBuffer
    simp only [hflush]
    have hmod : (8 - w.bitPos) % 8 = 0 := by omega
    rw [hmod]
    simp only [writeBitList, List.replicate_zero, List.foldl_nil, List.replicate_zero,
      List.append_nil, wbits, h0]
    simp
  · have hflush : (if w.bitPos > 0 then 8 - w.bitPos else 0) = 8 - w.bitPos := by
      rw [if_pos]; omega
    unfold getBuffer
    rw [hflush]
    have hspec := writeBitList_spec (List.replicate (8 - w.bitPos) 0) w h
    have hbp' : (writeBitList (List.replicate (8 - w.bitPos) 0) w).bitPos = 0 := by
      rw [hspec.2.2, List.length_replicate]
      omega
    have hwbits := hspec.2.1
    have hfull : wbits (writeBitList (List.replicate (8 - w.bitPos) 0) w) =
        bytesBits (writeBitList (List.replicate (8 - w.bitPos) 0) w).buffers := by
      unfold wbits
      rw [hbp']
      simp
    rw [← hfull, hwbits]
    have hmap : (List.replicate (8 - w.bitPos) (0 : Nat)).map bitB =
        List.replicate (8 - w.bitPos) false := by
      rw [List.map_replicate]
      rfl
    rw [hmap]
    have hmod : (8 - w.bitPos) % 8 = 8 - w.bitPos := by omega
    rw [hmod]

theorem byteBits_eq (b : Nat) :
    byteBits b = [b.testBit 7, b.testBit 6, b.testBit 5, b.testBit 4,
      b.testBit 3, b.testBit 2, b.testBit 1, b.testBit 0] := rfl

theorem byteBits_drop_cons (b s : Nat) (hs : s < 8) :
    (byteBits b).drop s = b.testBit (7 - s) :: (byteBits b).drop (s + 1) := by
  interval_cases s <;> simp [byteBits_eq]

theorem bytesBits_drop_decomp (bs : List Nat) :
    ∀ q s, q < bs.length → s < 8 →
    (bytesBits bs).drop (8 * q + s) = (byteBits (bs.getD q 0)).drop s ++ bytesBits (bs.drop (q + 1)) := by
  induction bs with
  | nil => intro q s hq hs; simp at hq
  | cons b t ih =>
    intro q s hq hs
    rcases q with - | q
    · rw [bytesBits_cons]
      rw [Nat.mul_zero, Nat.zero_add]
      rw [List.drop_append_of_le_length (by rw [byteBits_length]; omega)]
      rfl
    · rw [bytesBits_cons]
      have harith : 8 * (q + 1) + s = 8 + (8 * q + s) := by ring
      rw [harith]
      rw [← List.drop_drop]
      rw [List.drop_append_of_le_length (by rw [byteBits_length])]
      have hd8 : (byteBits b).drop 8 = [] := by
        apply List.drop_eq_nil_of_le
        rw [byteBits_length]
      rw [hd8, List.nil_append]
      have := ih q s (by simpa using hq) hs
      exact this

theorem remBits_start (data : List Nat) : remBits (BitReader.start data) = bytesBits data := by
  simp [remBits, BitReader.start]

theorem readBit_step (r : BitReader) (b : Bool) (rest : List Bool) (hWF : WFr r)
    (h : remBits r = b :: rest) :
    ∃ r', readBit r = some (if b then 1 else 0, r') ∧ WFr r' ∧ r'.data = r.data ∧
      remBits r' = rest := by
  have hWF' : r.bitPos < 8 := hWF
  have hlen : r.bytePos < r.data.length := by
    by_contra hge
    rw [Nat.not_lt] at hge
    have hnil : remBits r = [] := by
      apply List.drop_eq_nil_of_le
      rw [bytesBits_length]
      omega
    rw [hnil] at h
    cases h
  have hdecomp := bytesBits_drop_decomp r.data r.bytePos r.bitPos hlen hWF'
  have hcons := byteBits_drop_cons (r.data.getD r.bytePos 0) r.bitPos hWF'
  rw [remBits, hdecomp, hcons] at h
  have hb : b = (r.data.getD r.bytePos 0).testBit (7 - r.bitPos) := by
    have := List.cons.injEq .. ▸ h
    exact (List.cons.inj h.symm).1
  have hrest : rest = (byteBits (r.data.getD r.bytePos 0)).drop (r.bitPos + 1) ++
      bytesBits (r.data.drop (r.bytePos + 1)) := by
    exact (List.cons.inj h.symm).2
  have haux : ∀ x : Nat, x &&& 1 = if x.testBit 0 then 1 else 0 := by
    intro x
    rw [Nat.and_one_is_mod, Nat.testBit_zero]
    by_cases hm : x % 2 = 1
    · simp [hm]
    · simp [hm]
      omega
  have hbitval : ((r.data.getD r.bytePos 0) >>> (7 - r.bitPos)) &&& 1 =
      if b then 1 else 0 := by
    rw [haux, Nat.testBit_shiftRight, Nat.add_zero, hb]
  by_cases h8 : r.bitPos + 1 = 8
  · refine ⟨⟨r.data, r.bytePos + 1, 0⟩, ?_, by simp [WFr], rfl, ?_⟩
    · unfold readBit
      rw [if_neg (by omega), if_pos h8, hbitval]
    · show (bytesBits r.data).drop (8 * (r.bytePos + 1) + 0) = rest
      rw [hrest]
      by_cases hlen2 : r.bytePos + 1 < r.data.length
      · have hd2 := bytesBits_drop_decomp r.data (r.bytePos + 1) 0 hlen2 (by omega)
        rw [hd2]
        have hdd : (byteBits (r.data.getD r.bytePos 0)).drop (r.bitPos + 1) = [] := by
          apply List.drop_eq_nil_of_le
          rw [byteBits_length]
          omega
        rw [hdd, List.nil_append]
        have hd0 : (byteBits (r.data.getD (r.bytePos + 1) 0)).drop 0 =
            byteBits (r.data.getD (r.bytePos + 1) 0) := rfl
        rw [hd0]
        rw [← bytesBits_cons]
        congr 1
        have := List.getD_eq_getElem?_getD r.data (r.bytePos + 1) 0
        rw [List.drop_eq_getElem_cons hlen2]
        congr 1
        rw [List.getD_eq_getElem?_getD, List.getElem?_eq_getElem hlen2]
        rfl
      · have hend : r.data.length = r.bytePos + 1 := by omega
        have h1 : (bytesBits r.data).drop (8 * (r.bytePos + 1) + 0) = [] := by
          apply List.drop_eq_nil_of_le
          rw [bytesBits_length]
          omega
        have h2 : (byteBits (r.data.getD r.bytePos 0)).drop (r.bitPos + 1) = [] := by
          apply List.drop_eq_nil_of_le
          rw [byteBits_length]
          omega
        have h3 : bytesBits (r.data.drop (r.bytePos + 1)) = [] := by
          rw [List.drop_eq_nil_of_le (by omega)]
          rfl
        rw [h1, h2, h3]
        rfl
  · refine ⟨⟨r.data, r.bytePos, r.bitPos + 1⟩, ?_, by show r.bitPos + 1 < 8; omega, rfl, ?_⟩
    · unfold readBit
      rw [if_neg (by omega), if_neg h8, hbitval]
    · show (bytesBits r.data).drop (8 * r.bytePos + (r.bitPos + 1)) = rest
      rw [hrest]
      have hd := bytesBits_drop_decomp r.data r.bytePos (r.bitPos + 1) hlen (by omega)
      rw [show 8 * r.bytePos + (r.bitPos + 1) = 8 * r.bytePos + (r.bitPos + 1) from rfl] at hd
      exact hd

theorem bitsBE_zero (v : Nat) : bitsBE 0 v = [] := rfl

theorem bitsBE_succ (n v : Nat) : bitsBE (n + 1) v = v.testBit n :: bitsBE n v := by
  unfold bitsBE
  rw [List.range_succ_eq_map, List.map_cons, List.map_map]
  simp only [List.cons.injEq]
  refine ⟨by norm_num, ?_⟩
  apply List.map_congr_left
  intro j hj
  rw [List.mem_range] at hj
  simp only [Function.comp_apply]
  congr 1
  omega

theorem bitsBE_length (n v : Nat) : (bitsBE n v).length = n := by
  simp [bitsBE]

theorem bitsToNat_foldl (bs : List Bool) : ∀ a : Nat,
    bs.foldl (fun acc b => 2 * acc + (if b then 1 else 0)) a =
      a * 2 ^ bs.length + bitsToNat bs := by
  induction bs with
  | nil => intro a; simp [bitsToNat]
  | cons b t ih =>
    intro a
    show t.foldl _ (2 * a + (if b then 1 else 0)) = _
    rw [ih]
    show _ = a * 2 ^ (t.length + 1) +
      t.foldl (fun acc b => 2 * acc + (if b then 1 else 0)) (2 * 0 + (if b then 1 else 0))
    rw [ih (2 * 0 + (if b then 1 else 0))]
    have hps : 2 ^ (t.length + 1) = 2 * 2 ^ t.length := by rw [Nat.pow_succ]; ring
    by_cases hb : b <;> simp only [hb, if_true, if_false] <;> rw [hps] <;> ring

theorem bitsToNat_cons (b : Bool) (t : List Bool) :
    bitsToNat (b :: t) = (if b then 1 else 0) * 2 ^ t.length + bitsToNat t := by
  show t.foldl _ (2 * 0 + (if b then 1 else 0)) = _
  rw [bitsToNat_foldl]
  by_cases hb : b <;> simp [hb]

theorem bitsToNat_lt (bs : List Bool) : bitsToNat bs < 2 ^ bs.length := by
  induction bs with
  | nil => decide
  | cons b t ih =>
    rw [bitsToNat_cons, List.length_cons]
    have hps : 2 ^ (t.length + 1) = 2 * 2 ^ t.length := by rw [Nat.pow_succ]; ring
    by_cases hb : b <;> simp [hb] <;> omega

theorem bitsToNat_bitsBE (n v : Nat) : bitsToNat (bitsBE n v) = v % 2 ^ n := by
  induction n with
  | zero =>
    rw [bitsBE_zero, Nat.pow_zero, Nat.mod_one]
    rfl
  | succ m ih =>
    rw [bitsBE_succ, bitsToNat_cons, bitsBE_length, ih]
    have hmul : v % 2 ^ (m + 1) = v % 2 ^ m + 2 ^ m * (v / 2 ^ m % 2) := by
      rw [Nat.pow_succ]
      exact Nat.mod_mul
    rw [hmul, Nat.testBit_to_div_mod]
    by_cases hm : v / 2 ^ m % 2 = 1
    · rw [hm, if_pos (by norm_num)]
      omega
    · have h0 : v / 2 ^ m % 2 = 0 := by omega
      rw [h0, if_neg (by norm_num)]
      omega

theorem msbBits_map_bitB (v n : Nat) (hv : v < 2 ^ 32) (hn : n ≤ 32) :
    (msbBits ((v : Nat) : Int) n).map bitB = bitsBE n v := by
  unfold msbBits bitsBE
  rw [List.map_map]
  apply List.map_congr_left
  intro j hj
  rw [List.mem_range] at hj
  simp only [Function.comp_apply]
  show bitB (jsBit ((v : Nat) : Int) (n - 1 - j)) = v.testBit (n - 1 - j)
  rw [jsBit, jsToUint32_ofNat hv, Nat.mod_eq_of_lt (by omega : n - 1 - j < 32)]
  have hx : ((v >>> (n - 1 - j)) &&& 1) &&& 1 = v / 2 ^ (n - 1 - j) % 2 := by
    rw [Nat.and_one_is_mod, Nat.and_one_is_mod, Nat.shiftRight_eq_div_pow]
    omega
  rw [bitB, hx, Nat.testBit_to_div_mod]

theorem log2Fuel_spec : ∀ fuel n, 1 ≤ n → n ≤ fuel →
    2 ^ log2Fuel fuel n ≤ n ∧ n < 2 ^ (log2Fuel fuel n + 1) := by
  intro fuel
  induction fuel with
  | zero => intro n h1 h2; exact absurd h2 (by omega)
  | succ f ih =>
    intro n h1 h2
    by_cases hn : n ≥ 2
    · have hrec := ih (n / 2) (by omega) (by omega)
      simp only [log2Fuel, if_pos hn]
      have hp1 : 2 ^ (log2Fuel f (n / 2) + 1) = 2 * 2 ^ log2Fuel f (n / 2) := by
        rw [Nat.pow_succ]; ring
      have hp2 : 2 ^ (log2Fuel f (n / 2) + 1 + 1) = 2 * 2 ^ (log2Fuel f (n / 2) + 1) := by
        rw [Nat.pow_succ]; ring
      constructor
      · have := hrec.1
        omega
      · have := hrec.2
        omega
    · simp only [log2Fuel, if_neg hn]
      norm_num
      omega

theorem readBitsGo_spec : ∀ (n k a : Nat) (r : BitReader) (pre suf : List Bool),
    WFr r → remBits r = pre ++ suf → pre.length = n → a < 2 ^ k → k + n ≤ 31 →
    ∃ r', readBitsGo n ((a : Nat) : Int) r =
        some (((a * 2 ^ n + bitsToNat pre : Nat) : Int), r') ∧
      WFr r' ∧ r'.data = r.data ∧ remBits r' = suf := by
  intro n
  induction n with
  | zero =>
    intro k a r pre suf hWF hrem hlen ha hk
    have hnil : pre = [] := List.eq_nil_of_length_eq_zero hlen
    subst hnil
    refine ⟨r, ?_, hWF, rfl, by simpa using hrem⟩
    show some (((a : Nat) : Int), r) = _
    norm_num [bitsToNat]
  | succ m ih =>
    intro k a r pre suf hWF hrem hlen ha hk
    rcases pre with - | ⟨b, pre'⟩
    · simp at hlen
    · obtain ⟨r1, hread, hWF1, hdata1, hrem1⟩ :=
        readBit_step r b (pre' ++ suf) hWF (by simpa using hrem)
      have hbv : (if b then 1 else 0 : Nat) < 2 := by by_cases hb : b <;> simp [hb]
      have hps : (2 : Nat) ^ (k + 1) = 2 * 2 ^ k := by rw [Nat.pow_succ]; ring
      have hple : (2 : Nat) ^ (k + 1) ≤ 2 ^ 31 :=
        Nat.pow_le_pow_right (by norm_num) (by omega)
      have hshl : jsShl ((a : Nat) : Int) 1 = ((a * 2 ^ 1 : Nat) : Int) :=
        jsShl_ofNat (by omega) (by norm_num; omega)
      have hor : jsOr ((2 ^ 1 * a : Nat) : Int) (((if b then 1 else 0 : Nat) : Nat) : Int) =
          ((2 ^ 1 * a + (if b then 1 else 0) : Nat) : Int) :=
        jsOr_disjoint (by norm_num; omega) (by norm_num; omega)
      have hmul : (a * 2 ^ 1 : Nat) = 2 ^ 1 * a := by ring
      obtain ⟨r', hgo, hWF', hdata', hrem'⟩ :=
        ih (k + 1) (2 ^ 1 * a + (if b then 1 else 0)) r1 pre' suf hWF1 hrem1
          (by simpa using hlen) (by norm_num; omega) (by omega)
      refine ⟨r', ?_, hWF', by rw [hdata', hdata1], hrem'⟩
      show (readBit r).bind _ = _
      rw [hread]
      simp only [Option.bind]
      rw [hshl, hmul, hor, hgo]
      have hl' : pre'.length = m := by simpa using hlen
      have hval : (2 ^ 1 * a + (if b then 1 else 0)) * 2 ^ m + bitsToNat pre' =
          a * 2 ^ (m + 1) + bitsToNat (b :: pre') := by
        rw [bitsToNat_cons, hl', Nat.pow_succ]
        by_cases hb : b <;> simp [hb] <;> ring
      rw [hval]

theorem readBits_spec (n : Nat) (r : BitReader) (pre suf : List Bool)
    (hWF : WFr r) (hrem : remBits r = pre ++ suf) (hlen : pre.length = n) (hn : n ≤ 31) :
    ∃ r', readBits n r = some (((bitsToNat pre : Nat) : Int), r') ∧ WFr r' ∧
      r'.data = r.data ∧ remBits r' = suf := by
  obtain ⟨r', h1, h2, h3, h4⟩ :=
    readBitsGo_spec n 0 0 r pre suf hWF hrem hlen (by norm_num) (by omega)
  refine ⟨r', ?_, h2, h3, h4⟩
  rw [readBits, if_neg (by omega : ¬ n > 32)]
  have hz : ((0 : Nat) : Int) = (0 : Int) := rfl
  rw [hz] at h1
  have hval : ((0 * 2 ^ n + bitsToNat pre : Nat) : Int) = ((bitsToNat pre : Nat) : Int) := by
    norm_num
  rw [hval] at h1
  exact h1

theorem readUnaryGo_spec : ∀ (f z c : Nat) (r : BitReader) (suf : List Bool),
    WFr r → remBits r = List.replicate z false ++ true :: suf →
    c + z ≤ 32 → z < f →
    ∃ r', readUnaryGo f c r = some (c + z, r') ∧ WFr r' ∧ r'.data = r.data ∧
      remBits r' = suf := by
  intro f
  induction f with
  | zero => intro z c r suf _ _ _ hz; exact absurd hz (by omega)
  | succ f ih =>
    intro z c r suf hWF hrem hc hz
    rcases z with - | z1
    · obtain ⟨r1, hread, hWF1, hdata1, hrem1⟩ :=
        readBit_step r true suf hWF (by simpa using hrem)
      refine ⟨r1, ?_, hWF1, hdata1, hrem1⟩
      show (readBit r).bind _ = _
      rw [hread]
      simp only [Option.bind, if_true]
      norm_num
    · obtain ⟨r1, hread, hWF1, hdata1, hrem1⟩ :=
        readBit_step r false (List.replicate z1 false ++ true :: suf) hWF
          (by rw [hrem, List.replicate_succ]; rfl)
      obtain ⟨r', hgo, hWF', hdata', hrem'⟩ :=
        ih z1 (c + 1) r1 suf hWF1 hrem1 (by omega) (by omega)
      refine ⟨r', ?_, hWF', by rw [hdata', hdata1], hrem'⟩
      show (readBit r).bind _ = _
      rw [hread]
      simp only [Option.bind, if_false]
      have harr : c + (z1 + 1) = c + 1 + z1 := by omega
      rw [if_neg (by omega : ¬ c + 1 > 32), harr, hgo]
      norm_num

theorem readUExpGolombGo_spec : ∀ (f z c : Nat) (r : BitReader) (bs suf : List Bool),
    WFr r → remBits r = List.replicate z false ++ true :: (bs ++ suf) →
    bs.length = c + z → 1 ≤ c + z → c + z ≤ 30 → z < f →
    ∃ r', readUExpGolombGo f c r =
        some (((2 ^ (c + z) - 1 + bitsToNat bs : Nat) : Int), r') ∧ WFr r' ∧
      remBits r' = suf := by
  intro f
  induction f with
  | zero => intro z c r bs suf _ _ _ _ _ hz; exact absurd hz (by omega)
  | succ f ih =>
    intro z c r bs suf hWF hrem hlen h1 h30 hz
    rcases z with - | z1
    · obtain ⟨r1, hread, hWF1, hdata1, hrem1⟩ :=
        readBit_step r true (bs ++ suf) hWF (by simpa using hrem)
      have hc0 : ¬ (c = 0) := by omega
      obtain ⟨r2, hbits, hWF2, hdata2, hrem2⟩ :=
        readBits_spec c r1 bs suf hWF1 hrem1 (by omega) (by omega)
      refine ⟨r2, ?_, hWF2, hrem2⟩
      have hread' : readBit r = some (1, r1) := by rw [hread]; rfl
      show (readBit r).bind _ = _
      rw [hread']
      simp only [Option.bind]
      rw [if_neg (by norm_num), if_neg hc0, hbits]
      simp only [Option.map]
      have hcle : (2 : Nat) ^ c ≤ 2 ^ 30 := Nat.pow_le_pow_right (by norm_num) (by omega)
      have hshl : jsShl ((1 : Nat) : Int) c = ((1 * 2 ^ c : Nat) : Int) :=
        jsShl_ofNat (by omega) (by norm_num; omega)
      have h1c : (1 : Int) = ((1 : Nat) : Int) := rfl
      rw [h1c, hshl]
      have hpos := Nat.two_pow_pos c
      simp only [Option.some.injEq, Prod.mk.injEq]
      refine ⟨?_, trivial⟩
      have hc0' : c + 0 = c := rfl
      rw [hc0']
      omega
    · obtain ⟨r1, hread, hWF1, hdata1, hrem1⟩ :=
        readBit_step r false (List.replicate z1 false ++ true :: (bs ++ suf)) hWF
          (by rw [hrem, List.replicate_succ]; rfl)
      obtain ⟨r', hgo, hWF', hrem'⟩ :=
        ih z1 (c + 1) r1 bs suf hWF1 hrem1 (by omega) (by omega) (by omega) (by omega)
      refine ⟨r', ?_, hWF', hrem'⟩
      show (readBit r).bind _ = _
      rw [hread]
      simp only [Option.bind, if_false]
      have harr : c + (z1 + 1) = c + 1 + z1 := by omega
      rw [if_neg (by omega : ¬ c + 1 > 32), harr, hgo]
      norm_num

/-- C2: the unsigned Exp-Golomb round trip `readUExpGolomb ∘ writeUExpGolomb`
is the identity on `[0, 2^31 - 2]`.  (At `2^31 - 1` the claimed range breaks:
see the counterexample theorem.)  The writer emits `log2(u+1)` zeros followed
by the `log2(u+1) + 1` bits of `u + 1`; the reader counts the zeros, reads the
suffix and reassembles `(1 << lz) - 1 + suffix = u`. -/
theorem uExpGolomb_roundTrip_id (u : Nat) (h : u ≤ 2 ^ 31 - 2) :
    uExpGolombRoundTrip u = some (u : Int) := by
  rcases Nat.eq_zero_or_pos u with h0 | hposu
  · subst h0
    decide
  · have hne : ¬ (u = 0) := by omega
    have hspec := log2Fuel_spec (u + 1) (u + 1) (by omega) (le_refl _)
    unfold uExpGolombRoundTrip writeUExpGolomb
    rw [if_neg hne]
    show (writeBits ((u + 1 : Nat) : Int) (jsLog2Floor (u + 1) + 1)
        (writeBitList (List.replicate (jsLog2Floor (u + 1) + 1 - 1) 0) BitWriter.init)).bind
      (fun w => (readUExpGolomb (BitReader.start (getBuffer w))).map Prod.fst) = some (u : Int)
    rw [Nat.add_sub_cancel]
    simp only [jsLog2Floor]
    set L := log2Fuel (u + 1) (u + 1) with hLdef
    have hps : 2 ^ (L + 1) = 2 * 2 ^ L := by rw [Nat.pow_succ]; ring
    have hL30 : L ≤ 30 := by
      by_contra hgt
      have h31 : (2 : Nat) ^ 31 ≤ 2 ^ L := Nat.pow_le_pow_right (by norm_num) (by omega)
      omega
    have hL1 : 1 ≤ L := by
      rcases Nat.eq_zero_or_pos L with hL0 | hL1
      · rw [hL0] at hspec
        norm_num at hspec
        omega
      · exact hL1
    have hdiv : (u + 1) / 2 ^ L = 1 := by
      apply Nat.div_eq_of_lt_le
      · simpa using hspec.1
      · omega
    have htb : (u + 1).testBit L = true := by
      rw [Nat.testBit_to_div_mod, hdiv]
      rfl
    have hWFi : WFw BitWriter.init := ⟨by decide, by decide⟩
    have hwi : wbits BitWriter.init = [] := rfl
    have hmr : (List.replicate L (0 : Nat)).map bitB = List.replicate L false := by
      rw [List.map_replicate, show bitB 0 = false by decide]
    have hw1 := writeBitList_spec (List.replicate L 0) BitWriter.init hWFi
    have hwb1 : wbits (writeBitList (List.replicate L 0) BitWriter.init) =
        List.replicate L false := by
      rw [hw1.2.1, hwi, hmr, List.nil_append]
    rw [writeBits, if_neg (show ¬ L + 1 > 32 by omega)]
    simp only [Option.bind]
    set w2 := writeBitList (msbBits ((u + 1 : Nat) : Int) (L + 1))
      (writeBitList (List.replicate L 0) BitWriter.init) with hw2def
    have hw2 := writeBitList_spec (msbBits ((u + 1 : Nat) : Int) (L + 1))
      (writeBitList (List.replicate L 0) BitWriter.init) hw1.1
    have hwb2 : wbits w2 = List.replicate L false ++ bitsBE (L + 1) (u + 1) := by
      rw [hw2def, hw2.2.1, hwb1, msbBits_map_bitB (u + 1) (L + 1) (by omega) (by omega)]
    have hstream : remBits (BitReader.start (getBuffer w2)) =
        List.replicate L false ++ true :: (bitsBE L (u + 1) ++
          List.replicate ((8 - w2.bitPos) % 8) false) := by
      rw [remBits_start, getBuffer_spec w2 hw2.1, hwb2, bitsBE_succ, htb,
        List.append_assoc, List.cons_append]
    obtain ⟨r', hr, hWFr', hrem'⟩ :=
      readUExpGolombGo_spec 33 L 0 (BitReader.start (getBuffer w2)) (bitsBE L (u + 1))
        (List.replicate ((8 - w2.bitPos) % 8) false)
        (by show (0 : Nat) < 8; norm_num) hstream (by rw [bitsBE_length]; omega)
        (by omega) (by omega) (by omega)
    rw [readUExpGolomb, hr]
    simp only [Option.map]
    have hval : 2 ^ (0 + L) - 1 + bitsToNat (bitsBE L (u + 1)) = u := by
      rw [bitsToNat_bitsBE, Nat.zero_add]
      have hmod : (u + 1) % 2 ^ L = u + 1 - 2 ^ L := by
        rw [Nat.mod_eq_sub_mod hspec.1]
        apply Nat.mod_eq_of_lt
        omega
      rw [hmod]
      have hpos := Nat.two_pow_pos L
      omega
    rw [hval]

/-- Witness for C2 at a concrete input: writing and re-reading 5 yields 5. -/
theorem uExpGolomb_roundTrip_id_witness : uExpGolombRoundTrip 5 = some 5 :=
  uExpGolomb_roundTrip_id 5 (by norm_num)

set_option maxRecDepth 8000 in
/-- C2 counterexample at the top of the claimed range: for `u = 2^31 - 1` the
code `u + 1 = 2^31` needs 32 bits, and the reader's `(1 << leadingZeros) - 1`
computes `1 << 31` in signed 32-bit arithmetic, yielding `-2^31 - 1` instead
of `2^31 - 1`. -/
theorem uExpGolomb_roundTrip_max_counterexample :
    uExpGolombRoundTrip (2 ^ 31 - 1) = some (-2147483649) ∧
      uExpGolombRoundTrip (2 ^ 31 - 1) ≠ some (((2 ^ 31 - 1 : Nat) : Int)) := by
  constructor
  · decide
  · decide

/-- C3: the Rice round trip `readRice k ∘ writeRice k` is the identity for
`v ∈ [-2^20, 2^20]` and `k ∈ [0, 20]`, provided the unary quotient
`zigzag v >> k` does not exceed the reader's 32-zero cap (without that proviso
the reader throws: see the counterexample theorem). -/
theorem rice_roundTrip_id (v : Int) (k : Nat) (hv1 : -(2 ^ 20) ≤ v) (hv2 : v ≤ 2 ^ 20)
    (hk : k ≤ 20) (hq : zigzag v / 2 ^ k ≤ 32) :
    riceRoundTrip v k = some v := by
  have hU : zigzag v ≤ 2 ^ 21 := by
    rw [zigzag]
    by_cases hvs : (0 : Int) ≤ v
    · rw [if_pos hvs]; omega
    · rw [if_neg hvs]; omega
  have hUlt : zigzag v < 2 ^ 31 := by omega
  have hcast : (if (0 : Int) ≤ v then v * 2 else (-v) * 2 - 1) = ((zigzag v : Nat) : Int) := by
    rw [zigzag]
    by_cases hvs : (0 : Int) ≤ v
    · rw [if_pos hvs, if_pos hvs]; omega
    · rw [if_neg hvs, if_neg hvs]; omega
  have hquot : jsShr ((zigzag v : Nat) : Int) k = ((zigzag v / 2 ^ k : Nat) : Int) :=
    jsShr_ofNat hUlt (by omega)
  have hkle : (2 : Nat) ^ k ≤ 2 ^ 20 := Nat.pow_le_pow_right (by norm_num) hk
  have hkpos := Nat.two_pow_pos k
  have h1c : (1 : Int) = ((1 : Nat) : Int) := rfl
  have hshl1 : jsShl ((1 : Nat) : Int) k = ((1 * 2 ^ k : Nat) : Int) :=
    jsShl_ofNat (by omega) (by norm_num; omega)
  have hRlt : zigzag v % 2 ^ k < 2 ^ k := Nat.mod_lt _ hkpos
  have hsub : ((1 * 2 ^ k : Nat) : Int) - ((1 : Nat) : Int) = ((2 ^ k - 1 : Nat) : Int) := by
    omega
  have hand : (zigzag v) &&& (2 ^ k - 1) = zigzag v % 2 ^ k :=
    Nat.and_pow_two_sub_one_eq_mod (zigzag v) k
  have hrem : jsAnd ((zigzag v : Nat) : Int) (jsShl 1 k - 1) =
      ((zigzag v % 2 ^ k : Nat) : Int) := by
    rw [h1c, hshl1, hsub, jsAnd, jsToUint32_ofNat (show zigzag v < 2 ^ 32 by omega),
      jsToUint32_ofNat (show 2 ^ k - 1 < 2 ^ 32 by omega), hand,
      int32OfUint32_of_lt (show zigzag v % 2 ^ k < 2 ^ 31 by omega)]
  have htoNat : (((zigzag v / 2 ^ k : Nat) : Int)).toNat = zigzag v / 2 ^ k :=
    Int.toNat_natCast _
  have hWFi : WFw BitWriter.init := ⟨by decide, by decide⟩
  have hwi : wbits BitWriter.init = [] := rfl
  have hmr : (List.replicate (zigzag v / 2 ^ k) (0 : Nat)).map bitB =
      List.replicate (zigzag v / 2 ^ k) false := by
    rw [List.map_replicate, show bitB 0 = false by decide]
  have hw1 := writeBitList_spec (List.replicate (zigzag v / 2 ^ k) 0) BitWriter.init hWFi
  have hwbit := wbits_writeBit
    (writeBitList (List.replicate (zigzag v / 2 ^ k) 0) BitWriter.init) 1 hw1.1
  unfold riceRoundTrip writeRice
  show (writeBits (jsAnd (if 0 ≤ v then v * 2 else (-v) * 2 - 1) (jsShl 1 k - 1)) k
      (writeUnary (jsShr (if 0 ≤ v then v * 2 else (-v) * 2 - 1) k) BitWriter.init)).bind
    (fun w => (readRice k (BitReader.start (getBuffer w))).map Prod.fst) = some v
  rw [hcast, hquot, hrem, writeUnary, htoNat]
  rw [writeBits, if_neg (show ¬ k > 32 by omega)]
  simp only [Option.bind]
  set w3 := writeBitList (msbBits ((zigzag v % 2 ^ k : Nat) : Int) k)
    (writeBit 1 (writeBitList (List.replicate (zigzag v / 2 ^ k) 0) BitWriter.init))
    with hw3def
  have hw3 := writeBitList_spec (msbBits ((zigzag v % 2 ^ k : Nat) : Int) k)
    (writeBit 1 (writeBitList (List.replicate (zigzag v / 2 ^ k) 0) BitWriter.init)) hwbit.1
  have hwb3 : wbits w3 = List.replicate (zigzag v / 2 ^ k) false ++
      true :: bitsBE k (zigzag v % 2 ^ k) := by
    rw [hw3def, hw3.2.1, hwbit.2.1, hw1.2.1, hwi, hmr, List.nil_append,
      msbBits_map_bitB (zigzag v % 2 ^ k) k (by omega) (by omega),
      show bitB 1 = true by decide, List.append_assoc, List.singleton_append]
  have hstream : remBits (BitReader.start (getBuffer w3)) =
      List.replicate (zigzag v / 2 ^ k) false ++ true :: (bitsBE k (zigzag v % 2 ^ k) ++
        List.replicate ((8 - w3.bitPos) % 8) false) := by
    rw [remBits_start, getBuffer_spec w3 hw3.1, hwb3,
      List.append_assoc, List.cons_append]
  obtain ⟨r1, hun, hWFr1, hdata1, hrem1⟩ :=
    readUnaryGo_spec 33 (zigzag v / 2 ^ k) 0 (BitReader.start (getBuffer w3))
      (bitsBE k (zigzag v % 2 ^ k) ++ List.replicate ((8 - w3.bitPos) % 8) false)
      (by show (0 : Nat) < 8; norm_num) hstream (by omega) (by omega)
  have hun' : readUnaryGo 33 0 (BitReader.start (getBuffer w3)) =
      some (zigzag v / 2 ^ k, r1) := by
    rw [hun]
    norm_num
  obtain ⟨r2, hbits, hWFr2, hdata2, hrem2⟩ :=
    readBits_spec k r1 (bitsBE k (zigzag v % 2 ^ k))
      (List.replicate ((8 - w3.bitPos) % 8) false) hWFr1 hrem1 (bitsBE_length _ _) (by omega)
  have hbits' : readBits k r1 = some (((zigzag v % 2 ^ k : Nat) : Int), r2) := by
    rw [hbits, bitsToNat_bitsBE, Nat.mod_mod_of_dvd _ (dvd_refl _)]
  rw [readRice, readUnary, hun']
  simp only [Option.bind]
  rw [hbits']
  simp only [Option.map]
  have hsumQ := Nat.div_add_mod (zigzag v) (2 ^ k)
  have hQk : zigzag v / 2 ^ k * 2 ^ k ≤ zigzag v := Nat.div_mul_le_self _ _
  have hshlQ : jsShl ((zigzag v / 2 ^ k : Nat) : Int) k =
      ((zigzag v / 2 ^ k * 2 ^ k : Nat) : Int) :=
    jsShl_ofNat (by omega) (by omega)
  have hmulc : (zigzag v / 2 ^ k * 2 ^ k : Nat) = 2 ^ k * (zigzag v / 2 ^ k) := by ring
  have horv : jsOr ((2 ^ k * (zigzag v / 2 ^ k) : Nat) : Int) ((zigzag v % 2 ^ k : Nat) : Int) =
      ((2 ^ k * (zigzag v / 2 ^ k) + zigzag v % 2 ^ k : Nat) : Int) :=
    jsOr_disjoint hRlt (by omega)
  rw [hshlQ, hmulc, horv, hsumQ]
  have hshr2 : jsShr ((zigzag v : Nat) : Int) 1 = ((zigzag v / 2 : Nat) : Int) :=
    jsShr_ofNat hUlt (by norm_num)
  have hand1 : jsAnd ((zigzag v : Nat) : Int) 1 = ((zigzag v % 2 : Nat) : Int) :=
    jsAnd_one (by omega)
  rw [hshr2, hand1]
  by_cases hvs : (0 : Int) ≤ v
  · have hzv : zigzag v = 2 * v.toNat := by rw [zigzag, if_pos hvs]
    have hU2 : zigzag v % 2 = 0 := by omega
    have hneg0 : -(((zigzag v % 2 : Nat) : Int)) = 0 := by rw [hU2]; norm_num
    rw [hneg0, jsXor_zero (show zigzag v / 2 < 2 ^ 31 by omega)]
    have hfin : ((zigzag v / 2 : Nat) : Int) = v := by omega
    rw [hfin]
  · have hzv : zigzag v = 2 * (-v).toNat - 1 := by rw [zigzag, if_neg hvs]
    have hm1 : 1 ≤ (-v).toNat := by omega
    have hU2 : zigzag v % 2 = 1 := by omega
    have hneg1 : -(((zigzag v % 2 : Nat) : Int)) = -1 := by rw [hU2]; norm_num
    rw [hneg1, jsXor_neg_one (show zigzag v / 2 < 2 ^ 31 by omega)]
    have hfin : -(((zigzag v / 2 : Nat) : Int)) - 1 = v := by omega
    rw [hfin]

/-- Witness for C3 at a concrete input: writing 5 at parameter 2 and reading
it back yields 5. -/
theorem rice_roundTrip_id_witness : riceRoundTrip 5 2 = some 5 :=
  rice_roundTrip_id 5 2 (by norm_num) (by norm_num) (by norm_num) (by decide)

set_option maxRecDepth 8000 in
/-- C3 counterexample inside the claimed range: `v = 17`, `k = 0` zig-zags to
34, whose unary quotient of 34 zeros trips the reader's `count > 32` guard, so
`readRice` throws instead of returning 17. -/
theorem rice_roundTrip_error_counterexample : riceRoundTrip 17 0 = none := by
  decide
